import Mathlib

/-!
# MITHRA Energy Label Analyzer: verification of the core pipeline

This file gives a shallow embedding, in Lean 4, of the core of the MITHRA
repository (an eBay energy-label batch analyzer) and proves or refutes the
frozen specification claims about it.

Embedded components and their sources:

* String/regex utilities and the URL validity test
  (shared/constants.js: REGEX_PATTERNS, ERROR_MESSAGES).
* The structural classifier over rendered markup
  (backend/domAnalyzer.js: checkProduktdatenblatt, checkEnergielabel,
  checkMouseOver), over an explicit DOM tree model.
* The scraper service error path, navigation retry loop and rate limiter
  (backend/scraperService.js: scrapeEbayURL, createErrorResult,
  respectRateLimit).
* The HTTP analyze route including its browser-on-demand middleware
  (backend/server.js: POST /api/analyze-ebay).
* The frontend fetch client retry loop and in-flight de-duplication
  (frontend/apiClient.js: makeRequest, analyzeURL, cancelAllRequests).
* The frontend job orchestrator as a labelled transition system
  (frontend/analysisEngine.js: startAnalysis, processWithConcurrency,
  processNextRow, processRow, pauseAnalysis, resumeAnalysis, stopAnalysis,
  completeAnalysis), with interleaving of worker dispatch and settlement
  steps so that concurrency-sensitive properties can be stated.

JavaScript detail kept faithfully: statuses are the string constants of
ANALYSIS_STATUS; machine work over strings is done on explicit character
lists; the regex tests are modelled by equivalent backtracking-free
scanners (argued in comments at each definition).
-/

namespace Mithra

/-! ## Character and string utilities

JavaScript string operations used by the source: String.prototype.includes
(contiguous substring), toLowerCase, trim, and regex test. All are modelled
on explicit character lists.
-/

/-- Lower-case a character list, modelling String.prototype.toLowerCase on
the ASCII strings the source compares. -/
def lcList (l : List Char) : List Char := l.map Char.toLower

/-- Does the second list occur as the leading segment of the first
argument list? Helper for the substring test. -/
def matchAt : List Char → List Char → Bool
  | [], _ => true
  | _ :: _, [] => false
  | p :: ps, c :: cs => p == c && matchAt ps cs

/-- Contiguous substring test, modelling String.prototype.includes:
pat occurs contiguously somewhere in s. -/
def containsSub (s pat : List Char) : Bool :=
  matchAt pat s ||
    (match s with
     | [] => false
     | _ :: rest => containsSub rest pat)

/-- JavaScript whitespace characters relevant to the source's regexes and
trim calls (the common ASCII ones plus NBSP). -/
def isJsSpace (c : Char) : Bool :=
  c == ' ' || c == '\t' || c == '\n' || c == '\r' ||
  c == '\x0b' || c == '\x0c' || c == ' '

/-- Both-ends whitespace strip, modelling String.prototype.trim. -/
def jsTrim (l : List Char) : List Char :=
  ((l.dropWhile isJsSpace).reverse.dropWhile isJsSpace).reverse

/-- Is the character an energy-rating letter A-G, either case?  Models the
character class of the regex EEK\s*[A-G][+]* with the i flag. -/
def isRatingLetter (c : Char) : Bool :=
  ['a', 'b', 'c', 'd', 'e', 'f', 'g'].contains c.toLower

/-- After the literal EEK, the regex EEK\s*[A-G][+]* needs zero or more
whitespace characters and then a rating letter; since whitespace and
rating letters are disjoint character classes, greedy whitespace skipping
is equivalent to the backtracking semantics, and the trailing plus-star
matches the empty string so it constrains nothing under test. -/
def eekTail (l : List Char) : Bool :=
  match l.dropWhile isJsSpace with
  | [] => false
  | c :: _ => isRatingLetter c

/-- Does the regex EEK\s*[A-G][+]* (case-insensitive) match at the head of
the list? -/
def matchEekAt (l : List Char) : Bool :=
  match l with
  | a :: b :: c :: rest =>
      a.toLower == 'e' && b.toLower == 'e' && c.toLower == 'k' && eekTail rest
  | _ => false

/-- Case-insensitive test of /EEK\s*[A-G][+]*/i anywhere in the list,
modelling RegExp.prototype.test as used on fake-link texts in
domAnalyzer.js checkEnergielabel. -/
def eekScan : List Char → Bool
  | [] => false
  | c :: rest => matchEekAt (c :: rest) || eekScan rest

/-- Case-insensitive literal strip: if pat matches the head of s up to
character case, return the remainder. Building block for the anchored
eBay-URL regex test. -/
def stripCI : List Char → List Char → Option (List Char)
  | [], s => some s
  | _ :: _, [] => none
  | p :: ps, c :: cs => if p.toLower == c.toLower then stripCI ps cs else none

/-- The marketplace domain alternatives of REGEX_PATTERNS.EBAY_URL in
shared/constants.js, in the order they are written there. -/
def ebayDomains : List String :=
  ["com", "de", "co.uk", "fr", "it", "es", "com.au", "ca", "ch", "at",
   "nl", "be", "ie"]

/-- Model of REGEX_PATTERNS.EBAY_URL.test, the anchored case-insensitive
pattern matching http(s)://(www.)?ebay.(domain)/ at the start of the URL.
The optional s and the optional www. can be stripped greedily without
backtracking because the character after them in every completing match
(the colon of ://, the e of ebay.) differs from the character they start
with; the domain alternation is tried alternative by alternative with the
mandatory trailing slash attached, which reproduces regex backtracking
(for instance com versus com.au). -/
def ebayUrlTest (url : String) : Bool :=
  match stripCI "http".data url.data with
  | none => false
  | some r1 =>
    let r2 := match stripCI "s".data r1 with
      | some r => r
      | none => r1
    match stripCI "://".data r2 with
    | none => false
    | some r3 =>
      let r4 := match stripCI "www.".data r3 with
        | some r => r
        | none => r3
      match stripCI "ebay.".data r4 with
      | none => false
      | some r5 => ebayDomains.any fun dmn => (stripCI (dmn ++ "/").data r5).isSome

/-! ### Error message constants (shared/constants.js ERROR_MESSAGES) -/

def errInvalidUrl : String := "Invalid eBay URL format"
def errNetwork : String := "Network connection failed"
def errTimeout : String := "Request timeout - page took too long to load"

/-! ## The DOM model

domAnalyzer.js parses the rendered page with JSDOM and inspects it through
querySelector calls with class selectors, a tag selector (img) and one
attribute-contains selector. We model an element tree: tag name, class
list, attribute list, own text, children. The mutual inductive keeps all
recursions structural so that concrete documents evaluate by kernel
reduction. -/

mutual
inductive Dom where
  | node (tag : String) (classes : List String)
      (attrs : List (String × String)) (text : String) (children : DomList)

inductive DomList where
  | nil
  | cons (d : Dom) (ds : DomList)
end

def Dom.tag : Dom → String
  | .node t _ _ _ _ => t

def Dom.classes : Dom → List String
  | .node _ c _ _ _ => c

def Dom.attrs : Dom → List (String × String)
  | .node _ _ a _ _ => a

def Dom.childList : Dom → DomList
  | .node _ _ _ _ ch => ch

/-- Attribute access, modelling Element.getAttribute (null when absent). -/
def getAttr (e : Dom) (k : String) : Option String :=
  e.attrs.lookup k

/-- A compound class selector such as .vim.x-eek matches an element whose
class list carries every named class. -/
def hasClasses (cs : List String) (e : Dom) : Bool :=
  cs.all fun c => e.classes.contains c

mutual
/-- First element, in document (preorder) order, of the subtree rooted at
the element (the element itself included) satisfying the predicate. This
is the search order of Document.querySelector. -/
def findDom (p : Dom → Bool) : Dom → Option Dom
  | .node t c a x ch =>
      if p (.node t c a x ch) then some (.node t c a x ch)
      else findDomL p ch

def findDomL (p : Dom → Bool) : DomList → Option Dom
  | .nil => none
  | .cons d ds =>
      match findDom p d with
      | some r => some r
      | none => findDomL p ds
end

/-- Element.querySelector with a compound class selector: first matching
strict descendant in document order. -/
def qsel (cs : List String) (e : Dom) : Option Dom :=
  findDomL (hasClasses cs) e.childList

/-- Element.querySelector restricted to a general predicate (used for the
img tag selector and the attribute-contains selector). -/
def qselP (p : Dom → Bool) (e : Dom) : Option Dom :=
  findDomL p e.childList

mutual
/-- All elements of the subtree (root included) satisfying the predicate,
in document order: Document.querySelectorAll. -/
def collectDom (p : Dom → Bool) : Dom → List Dom
  | .node t c a x ch =>
      if p (.node t c a x ch) then .node t c a x ch :: collectDomL p ch
      else collectDomL p ch

def collectDomL (p : Dom → Bool) : DomList → List Dom
  | .nil => []
  | .cons d ds => collectDom p d ++ collectDomL p ds
end

mutual
/-- Concatenated text of a subtree, modelling Node.textContent (the
element's own text, then its children's, in order). -/
def textContent : Dom → List Char
  | .node _ _ _ tx ch => tx.data ++ textContentL ch

def textContentL : DomList → List Char
  | .nil => []
  | .cons d ds => textContent d ++ textContentL ds
end

/-! ## The structural classifier (backend/domAnalyzer.js) -/

/-- DomAnalyzer.checkProduktdatenblatt: requires the nested path
.x-regulatory-wrapper then .vim.x-eek then the combined
.x-eek__values.x-eek__product-fiche element; the product link is looked up
inside the fiche element first and, failing that, anywhere in the vim
container; the link must have an href that does not contain javascript:
and is longer than five characters, and its text must contain
Produktdatenblatt case-insensitively. -/
def checkProduktdatenblatt (doc : Dom) : Bool :=
  match findDom (hasClasses ["x-regulatory-wrapper"]) doc with
  | none => false
  | some rwEl =>
    match qsel ["vim", "x-eek"] rwEl with
    | none => false
    | some vimEl =>
      match qsel ["x-eek__values", "x-eek__product-fiche"] vimEl with
      | none => false
      | some ficheEl =>
        let productLink :=
          match qsel ["x-eek__product-link"] ficheEl with
          | some l => some l
          | none => qsel ["x-eek__product-link"] vimEl
        match productLink with
        | none => false
        | some link =>
          let hasValidHref :=
            match getAttr link "href" with
            | some h =>
                !(containsSub h.data "javascript:".data) && decide (h.length > 5)
            | none => false
          let hasProductText :=
            containsSub (lcList (textContent link)) "produktdatenblatt".data
          hasValidHref && hasProductText

/-- DomAnalyzer.checkEnergielabel (spelled checkEnergieLabel here):
requires the nested path .x-regulatory-wrapper then .vim.x-eek then
.x-eek__icon-overlay-wrapper then .ux-eek-icon then .eek; then the
exclusion rule: if the first .fake-link in the vim container has text
matching /EEK\s*[A-G][+]*/i the predicate is false; otherwise the
.eek__rating leaf must have nonempty trimmed text. -/
def checkEnergieLabel (doc : Dom) : Bool :=
  match findDom (hasClasses ["x-regulatory-wrapper"]) doc with
  | none => false
  | some rwEl =>
    match qsel ["vim", "x-eek"] rwEl with
    | none => false
    | some vimEl =>
      match qsel ["x-eek__icon-overlay-wrapper"] vimEl with
      | none => false
      | some iwEl =>
        match qsel ["ux-eek-icon"] iwEl with
        | none => false
        | some uxEl =>
          match qsel ["eek"] uxEl with
          | none => false
          | some eekEl =>
            let fakeBad :=
              match qsel ["fake-link"] vimEl with
              | some fl => eekScan (textContent fl)
              | none => false
            if fakeBad then false
            else
              match qsel ["eek__rating"] eekEl with
              | none => false
              | some r => !(jsTrim (textContent r)).isEmpty

/-- The real structural path of the energy-label predicate as named by the
specification: the containment chain .x-regulatory-wrapper then .vim.x-eek
then .x-eek__icon-overlay-wrapper then .ux-eek-icon then .eek. Identical
to the lookup chain of checkEnergieLabel with the exclusion rule and the
rating-content check omitted. -/
def energieLabelStructure (doc : Dom) : Bool :=
  match findDom (hasClasses ["x-regulatory-wrapper"]) doc with
  | none => false
  | some rwEl =>
    match qsel ["vim", "x-eek"] rwEl with
    | none => false
    | some vimEl =>
      match qsel ["x-eek__icon-overlay-wrapper"] vimEl with
      | none => false
      | some iwEl =>
        match qsel ["ux-eek-icon"] iwEl with
        | none => false
        | some uxEl =>
          match qsel ["eek"] uxEl with
          | none => false
          | some _ => true

/-- A shallow, single-selector search for the fake energy-label control: a
.fake-link element anywhere in the document whose text matches the EEK
rating pattern. This is the loose match the specification contrasts with
the classifier's layered check. -/
def shallowFakeEek (doc : Dom) : Bool :=
  (findDom (fun e => hasClasses ["fake-link"] e && eekScan (textContent e)) doc).isSome

/-- Chain of checks on one infotip overlay performed inside the loop of
DomAnalyzer.checkMouseOver: mask, cell, content, ux-image, img; then the
img needs an ebayimg source (case-insensitive) and energy-related alt
text (eek or energy as substring, or any rating letter A-G either case). -/
def overlayHasEnergyImage (ov : Dom) : Bool :=
  match qsel ["infotip__mask"] ov with
  | none => false
  | some mask =>
    match qsel ["infotip__cell"] mask with
    | none => false
    | some cell =>
      match qsel ["infotip__content"] cell with
      | none => false
      | some content =>
        match qsel ["ux-image"] content with
        | none => false
        | some uxImage =>
          match qselP (fun e => e.tag == "img") uxImage with
          | none => false
          | some img =>
            let src := (getAttr img "src").getD ""
            let alt := (getAttr img "alt").getD ""
            containsSub (lcList src.data) "ebayimg".data &&
              (containsSub (lcList alt.data) "eek".data ||
               containsSub (lcList alt.data) "energy".data ||
               alt.data.any isRatingLetter)

/-- DomAnalyzer.checkMouseOver: requires a regulatory wrapper somewhere,
collects every .infotip__overlay in the document, runs the per-overlay
chain on each, and falls back to the loose selector
.infotip__overlay img with src containing ebayimg (case-sensitive, as CSS
attribute-contains is). -/
def checkMouseOver (doc : Dom) : Bool :=
  match findDom (hasClasses ["x-regulatory-wrapper"]) doc with
  | none => false
  | some _ =>
    let overlays := collectDom (hasClasses ["infotip__overlay"]) doc
    if overlays.isEmpty then false
    else
      overlays.any overlayHasEnergyImage ||
        overlays.any fun ov =>
          (qselP (fun e =>
            e.tag == "img" &&
              (match getAttr e "src" with
               | some s => containsSub s.data "ebayimg".data
               | none => false)) ov).isSome

/-! ## The frontend fetch client (frontend/apiClient.js) -/

/-- Outcome of one HTTP attempt as seen by ApiClient.makeRequest: either a
parsed result value or a thrown error message. -/
inductive ReqOutcome (α : Type) where
  | ok (r : α)
  | err (msg : String)
deriving DecidableEq

/-- The error-message fragments of ApiClient.shouldNotRetry; an error whose
message contains one of these (case-insensitively) aborts the retry loop. -/
def noRetryMessages : List String :=
  ["Invalid eBay URL", "URL is required", "rate limit", "Too Many Requests",
   "NOT_EBAY_URL", "INVALID_URL_FORMAT"]

/-- ApiClient.shouldNotRetry: case-insensitive containment of any of the
non-retryable fragments in the error message. -/
def shouldNotRetry (msg : String) : Bool :=
  noRetryMessages.any fun m => containsSub (lcList msg.data) (lcList m.data)

/-- One possible result type of a request; the analyze endpoint returns the
scrape result, but the retry loop is generic in it. -/
structure ScrapeResult where
  productFiche : String
  energyLabel : String
  mouseoverLabel : String
  error : Option String
deriving DecidableEq

/-- The retry loop body of ApiClient.makeRequest. The source iterates
attempt from 0 to retries; before every attempt with attempt greater than
zero it waits retryDelay times attempt milliseconds; a successful attempt
returns; a failed attempt records lastError and breaks if shouldNotRetry,
and after the loop lastError is thrown. We model the loop as structural
recursion on the remaining retries, returning the outcome, the number of
attempts performed, and the list of backoff delays waited (in order). The
function f gives the outcome of attempt number k. -/
def runAttempts (f : Nat → ReqOutcome ScrapeResult) (d : Nat) :
    Nat → Nat → List Nat → Except String ScrapeResult × Nat × List Nat
  | attempt, remaining, acc =>
    let acc' := if attempt > 0 then acc ++ [d * attempt] else acc
    match f attempt with
    | .ok r => (.ok r, attempt + 1, acc')
    | .err e =>
      if shouldNotRetry e then (.error e, attempt + 1, acc')
      else
        match remaining with
        | 0 => (.error e, attempt + 1, acc')
        | n + 1 => runAttempts f d (attempt + 1) n acc'

/-- ApiClient.makeRequest with attempt outcomes f, backoff base d and retry
budget retries (the source defaults are d = 2000 and retries = 2). -/
def makeRequestModel (f : Nat → ReqOutcome ScrapeResult) (d retries : Nat) :
    Except String ScrapeResult × Nat × List Nat :=
  runAttempts f d 0 retries []

/-- The in-flight registry of ApiClient: the activeRequests map from URL to
the pending promise (represented by a numeric handle) plus a counter of
underlying requests ever started (which doubles as the next fresh
handle). -/
structure ClientState where
  active : List (String × Nat)
  nextId : Nat
deriving DecidableEq

def emptyClient : ClientState := ⟨[], 0⟩

/-- ApiClient.analyzeURL, reduced to its registry action: if the URL is
already in activeRequests the stored promise is returned unchanged;
otherwise a fresh underlying request is started, stored and returned. -/
def analyzeURLcall (s : ClientState) (url : String) : Nat × ClientState :=
  match s.active.lookup url with
  | some h => (h, s)
  | none => (s.nextId, ⟨(url, s.nextId) :: s.active, s.nextId + 1⟩)

/-- Settlement outcome of the underlying request. -/
inductive ReqResult where
  | success
  | failure
deriving DecidableEq

/-- The finally handler installed by analyzeURL: when the underlying
operation settles (with either outcome, and however many callers awaited
the stored promise) the registry entry for the URL is deleted. -/
def settleRequest (s : ClientState) (url : String) (_o : ReqResult) : ClientState :=
  ⟨s.active.filter fun p => p.1 != url, s.nextId⟩

/-- ApiClient.cancelAllRequests (invoked by the orchestrator's
stopAnalysis): clears the whole activeRequests map without settling the
underlying operations. -/
def cancelAllRequests (s : ClientState) : ClientState :=
  ⟨[], s.nextId⟩

/-! ## The scraper service (backend/scraperService.js) -/

/-- ScraperService.createErrorResult error-type mapping: timeout messages
map to the timeout error, network or HTTP or navigation messages to the
network error, anything else to Unknown error. The containment tests are
case-sensitive in the source. -/
def errorTypeOf (msg : String) : String :=
  if containsSub msg.data "timeout".data then errTimeout
  else if containsSub msg.data "network".data || containsSub msg.data "HTTP".data then
    errNetwork
  else if containsSub msg.data "navigation".data then errNetwork
  else "Unknown error"

/-- ScraperService.createErrorResult: the terminal value returned when the
scrape of one target fails; every predicate is the string Error and an
error message is attached. -/
def createErrorResult (msg : String) : ScrapeResult :=
  ⟨"Error", "Error", "Error", some (errorTypeOf msg)⟩

/-- One navigation attempt inside ScraperService.scrapeEbayURL: page.goto
either throws (error message) or yields a response status together with
the rendered page. A response with status at least 400 is turned into an
HTTP error by the source. -/
def navStep (nav : Nat → Except String (Nat × Dom)) (k : Nat) : Except String Dom :=
  match nav k with
  | .ok (st, page) => if st < 400 then .ok page else .error ("HTTP " ++ toString st)
  | .error e => .error e

/-- The navigation retry loop of scrapeEbayURL: attempts numbered from 1 up
to maxAttempts = 3; after a failed attempt k with k below the maximum the
source waits 3000 times k milliseconds and retries; the last failure is
rethrown (and caught by the enclosing try). Returns the outcome and the
retry delays waited. -/
def navLoopGo (nav : Nat → Except String (Nat × Dom)) :
    Nat → Nat → List Nat → Except String Dom × List Nat
  | k, fuel, acc =>
    match navStep nav k with
    | .ok page => (.ok page, acc)
    | .error e =>
      match fuel with
      | 0 => (.error e, acc)
      | n + 1 => navLoopGo nav (k + 1) n (acc ++ [3000 * k])

/-- Result of DomAnalyzer.performDetailedAnalysis on a successfully
rendered page, mapped to the Y/N strings by scrapeEbayURL. -/
def successResult (page : Dom) : ScrapeResult :=
  ⟨if checkProduktdatenblatt page then "Y" else "N",
   if checkEnergieLabel page then "Y" else "N",
   if checkMouseOver page then "Y" else "N",
   none⟩

/-- ScraperService.scrapeEbayURL: an invalid URL throws immediately
(Except.error); otherwise every failure inside the try block, including
exhaustion of the three navigation attempts, is caught and converted to
createErrorResult, so the function returns a value. -/
def scrapeEbayURL (url : String) (nav : Nat → Except String (Nat × Dom)) :
    Except String ScrapeResult :=
  if !ebayUrlTest url then .error errInvalidUrl
  else
    match (navLoopGo nav 1 2 []).1 with
    | .ok page => .ok (successResult page)
    | .error e => .ok (createErrorResult e)

/-- ScraperService.respectRateLimit as a pure function of the stored
lastRequestTime, the current time and the Math.random() sample (a rational
in the unit interval). Returns the spacing wait and the jitter wait; the
source then sets lastRequestTime to the time after both waits, which is
the moment the render begins. Times are rationals in milliseconds. -/
def respectRateLimit (lastRequestTime now rand : ℚ) : ℚ × ℚ :=
  let timeSince := now - lastRequestTime
  let minDelay : ℚ := 2000
  let ebayMinDelay := max minDelay 2000
  let waitSpacing := if timeSince < ebayMinDelay then ebayMinDelay - timeSince else 0
  let jitter := rand * 1000 + 500
  (waitSpacing, jitter)

/-- The moment the next render begins: the call time plus the spacing wait
plus the jitter wait. This is also the value stored into lastRequestTime
by the source. -/
def nextRenderStart (lastRequestTime now rand : ℚ) : ℚ :=
  now + (respectRateLimit lastRequestTime now rand).1 +
    (respectRateLimit lastRequestTime now rand).2

/-! ## The analyze route (backend/server.js) -/

/-- Server state relevant to the analyze route: whether initializeServices
has completed and whether the browser is currently connected. -/
structure ServerState where
  isServerReady : Bool
  browserConnected : Bool
deriving DecidableEq

/-- Status code and error code of a route response. -/
structure RouteOut where
  status : Nat
  code : String
deriving DecidableEq

/-- POST /api/analyze-ebay including its preceding middleware, which runs
before any validation: a 503 while services initialize; then, if the
browser is not connected, an on-demand browser initialization (503 on
failure, modelled by the initOk flag); only then the route handler
validates the body (missing or empty URL, then the minimum length ten,
then the eBay URL pattern) and only a URL passing all three checks reaches
scrapeEbayURL. Returns the response, the new server state, and whether the
scrape pipeline was invoked. -/
def analyzeRoute (initOk : Bool) (s : ServerState) (body : Option String) :
    RouteOut × ServerState × Bool :=
  if !s.isServerReady then (⟨503, "initializing"⟩, s, false)
  else if !s.browserConnected && !initOk then
    (⟨503, "browser_error"⟩, s, false)
  else
    let s' : ServerState := ⟨s.isServerReady, true⟩
    match body with
    | none => (⟨400, "MISSING_URL"⟩, s', false)
    | some url =>
      if url = "" then (⟨400, "MISSING_URL"⟩, s', false)
      else if url.length < 10 then (⟨400, "INVALID_URL_FORMAT"⟩, s', false)
      else if !ebayUrlTest url then (⟨400, "NOT_EBAY_URL"⟩, s', false)
      else (⟨200, "OK"⟩, s', true)

/-! ## The job orchestrator (frontend/analysisEngine.js)

The AnalysisEngine and its rows are modelled as a labelled transition
system. A state carries the uploaded rows (the Jobs), the processing
queue of row indices, the worker pool, the engine flags and the run
counters. Worker coroutines spawned by processWithConcurrency are
explicit: a worker slot is idle (at the top of the processNextRow loop),
busy on a row (awaiting processRow for it), or dead (its loop has
returned). startAnalysis spawns min(maxConcurrentRequests, queue length)
new workers and, crucially, does not and cannot terminate workers of an
earlier stopped run: those continue to exist and re-enter their loop when
their awaited request settles, which the transition system reproduces.

processRow is split at its await point into a dispatch step (the guard,
the transition to Processing) and a settle step (the try or catch
continuation plus the finally block), because the interesting claims are
about what may happen between the two. -/

/-- ANALYSIS_STATUS of shared/constants.js, restricted to the values the
engine assigns. -/
inductive Status where
  | pending
  | processing
  | completed
  | error
deriving DecidableEq

/-- One uploaded row (a Job): its status, the classification triple
(_productFiche, _energyLabelPresent, _mouseoverLabel) and _errorMessage.
Fields the claims do not mention (like _lastAnalyzed) are omitted. -/
structure Row where
  status : Status
  productFiche : Option String
  energyLabel : Option String
  mouseoverLabel : Option String
  errorMessage : Option String
deriving DecidableEq

/-- A freshly uploaded row: Pending, nothing populated. -/
def freshRow : Row :=
  ⟨.pending, none, none, none, none⟩

/-- Is the classification triple fully populated? -/
def populatedRow (r : Row) : Bool :=
  r.productFiche.isSome && r.energyLabel.isSome && r.mouseoverLabel.isSome

/-- A worker slot of some run: dead (its processNextRow loop has
returned), idle (at the top of the loop), or busy awaiting processRow on
the row with the given index. -/
inductive WStatus where
  | dead
  | idle
  | busy (i : Nat)
deriving DecidableEq

/-- The engine state: rows, queue of row indices, all worker slots ever
spawned, flags and counters of AnalysisEngine. -/
structure EngineState where
  rows : List Row
  queue : List Nat
  workers : List WStatus
  isProcessing : Bool
  isPaused : Bool
  isStopped : Bool
  processedRows : Nat
  successfulRows : Nat
  errorRows : Nat
  maxConcurrentRequests : Nat
deriving DecidableEq

/-- The engine right after construction with n uploaded rows:
maxConcurrentRequests is the constant 3 of the source constructor. -/
def initEngine (n : Nat) : EngineState :=
  ⟨List.replicate n freshRow, [], [], false, false, false, 0, 0, 0, 3⟩

/-- startAnalysis plus processWithConcurrency: reset flags and counters,
snapshot the batch into the queue, and spawn
min(maxConcurrentRequests, queue length) new workers. Earlier workers
remain in the pool (they are separate coroutines the engine holds no
handle to). -/
def doStart (s : EngineState) (batch : List Nat) : EngineState :=
  { s with isProcessing := true, isPaused := false, isStopped := false,
           processedRows := 0, successfulRows := 0, errorRows := 0,
           queue := batch,
           workers := s.workers ++
             List.replicate (min s.maxConcurrentRequests batch.length) WStatus.idle }

/-- The early-return branch of processRow: the popped row is already
Processing or Completed, so the worker consumes the queue item and does
nothing else. -/
def doSkip (s : EngineState) (rest : List Nat) : EngineState :=
  { s with queue := rest }

def markProcessing (r : Row) : Row :=
  { r with status := .processing }

/-- The dispatch half of processRow: pop the row, mark it Processing, and
mark the worker busy on it. -/
def doDispatch (s : EngineState) (w i : Nat) (rest : List Nat) : EngineState :=
  { s with queue := rest,
           rows := s.rows.set i (markProcessing (s.rows.getD i freshRow)),
           workers := s.workers.set w (.busy i) }

/-- Outcome of the awaited analyzeURL call as seen by processRow. -/
inductive FetchOut where
  | ok (productFiche energyLabel mouseoverLabel : String)
  | err (msg : String)
deriving DecidableEq

/-- The try continuation of processRow on success: populate the three
classification fields and set Completed. The source does not clear a
stale _errorMessage here. -/
def applySuccess (r : Row) (pf el ml : String) : Row :=
  { r with status := .completed, productFiche := some pf,
           energyLabel := some el, mouseoverLabel := some ml }

/-- The catch branch of processRow: set Error and the error message. The
source does not clear the classification fields here. -/
def applyFailure (r : Row) (msg : String) : Row :=
  { r with status := .error, errorMessage := some msg }

/-- The settle half of processRow: apply the success or failure update to
the row, free the worker, and run the finally block's counter updates
(processedRows always1;  successfulRows or errorRows depending on the
branch taken: processedRows always, and successfulRows or errorRows
depending on the branch). No flag of the engine is consulted here,
matching the source. -/
def doSettle (s : EngineState) (w i : Nat) (o : FetchOut) : EngineState :=
  match o with
  | .ok pf el ml =>
      { s with rows := s.rows.set i (applySuccess (s.rows.getD i freshRow) pf el ml),
               workers := s.workers.set w .idle,
               successfulRows := s.successfulRows + 1,
               processedRows := s.processedRows + 1 }
  | .err m =>
      { s with rows := s.rows.set i (applyFailure (s.rows.getD i freshRow) m),
               workers := s.workers.set w .idle,
               errorRows := s.errorRows + 1,
               processedRows := s.processedRows + 1 }

def doPause (s : EngineState) : EngineState :=
  { s with isPaused := true }

def doResume (s : EngineState) : EngineState :=
  { s with isPaused := false }

/-- The per-row reset of stopAnalysis: rows whose status is Processing are
put back to Pending; every other row is untouched. -/
def resetIfProcessing (r : Row) : Row :=
  if r.status = .processing then { r with status := .pending } else r

/-- stopAnalysis: set the stop flag, drop the processing and paused flags,
clear the queue, and reset Processing rows to Pending. Counters are not
touched and workers awaiting a request are not (and cannot be)
interrupted. -/
def doStop (s : EngineState) : EngineState :=
  { s with isStopped := true, isProcessing := false, isPaused := false,
           queue := [],
           rows := s.rows.map resetIfProcessing }

/-- completeAnalysis, reached when Promise.all over this run's workers
resolves. -/
def doFinish (s : EngineState) : EngineState :=
  { s with isProcessing := false, isPaused := false }

/-- A worker's processNextRow loop returns (the worker dies) when it
observes an empty queue or the stop flag at the loop head. -/
def doExit (s : EngineState) (w : Nat) : EngineState :=
  { s with workers := s.workers.set w .dead }

/-- Event labels of the engine transition system. -/
inductive Ev where
  | start (batch : List Nat)
  | dispatch (w : Nat)
  | settle (w : Nat) (o : FetchOut)
  | pause
  | resume
  | stop
  | finish
  | exitW (w : Nat)
deriving DecidableEq

/-- The engine transition relation. Each constructor's hypotheses are the
conditions the corresponding source code checks before acting. -/
inductive Step : EngineState → Ev → EngineState → Prop
  | start (s : EngineState) (batch : List Nat)
      (hp : s.isProcessing = false)
      (hv : ∀ i ∈ batch, i < s.rows.length) :
      Step s (.start batch) (doStart s batch)
  | dispatchSkip (s : EngineState) (w i : Nat) (rest : List Nat)
      (hw : s.workers.getD w .dead = .idle)
      (hst : s.isStopped = false) (hpa : s.isPaused = false)
      (hq : s.queue = i :: rest)
      (hg : (s.rows.getD i freshRow).status = .processing ∨
            (s.rows.getD i freshRow).status = .completed) :
      Step s (.dispatch w) (doSkip s rest)
  | dispatchRun (s : EngineState) (w i : Nat) (rest : List Nat)
      (hw : s.workers.getD w .dead = .idle)
      (hst : s.isStopped = false) (hpa : s.isPaused = false)
      (hq : s.queue = i :: rest)
      (hg : ¬((s.rows.getD i freshRow).status = .processing ∨
              (s.rows.getD i freshRow).status = .completed)) :
      Step s (.dispatch w) (doDispatch s w i rest)
  | settle (s : EngineState) (w i : Nat) (o : FetchOut)
      (hw : s.workers.getD w .dead = .busy i) :
      Step s (.settle w o) (doSettle s w i o)
  | pause (s : EngineState) (hp : s.isProcessing = true) :
      Step s .pause (doPause s)
  | resume (s : EngineState) (hp : s.isProcessing = true)
      (hpa : s.isPaused = true) :
      Step s .resume (doResume s)
  | stop (s : EngineState) (hp : s.isProcessing = true) :
      Step s .stop (doStop s)
  | finish (s : EngineState) (hp : s.isProcessing = true)
      (hq : s.queue = [])
      (hw : ∀ st ∈ s.workers, st = WStatus.dead) :
      Step s .finish (doFinish s)
  | exitW (s : EngineState) (w : Nat)
      (hw : s.workers.getD w .dead = .idle)
      (hc : s.queue = [] ∨ s.isStopped = true) :
      Step s (.exitW w) (doExit s w)

/-- Reachability along a list of events (most recent event first). -/
inductive ReachableE : EngineState → List Ev → EngineState → Prop
  | refl (s : EngineState) : ReachableE s [] s
  | tail {s : EngineState} {evs : List Ev} {t u : EngineState} {e : Ev}
      (h : ReachableE s evs t) (hs : Step t e u) : ReachableE s (e :: evs) u

/-- The row indices the busy workers currently own. -/
def WStatus.target : WStatus → Option Nat
  | .busy i => some i
  | _ => none

def ownedIdx (ws : List WStatus) : List Nat :=
  ws.filterMap WStatus.target

/-- Number of busy workers. -/
def busyCount (s : EngineState) : Nat :=
  (ownedIdx s.workers).length

/-- Number of workers that are still running (idle or busy). -/
def aliveW (w : WStatus) : Bool :=
  match w with
  | .dead => false
  | _ => true

def aliveCount (s : EngineState) : Nat :=
  s.workers.countP aliveW

/-- Number of rows whose status is Processing. -/
def processingCount (s : EngineState) : Nat :=
  ((Finset.range s.rows.length).filter
    (fun j => (s.rows.getD j freshRow).status = .processing)).card

/-! ## List helper lemmas

Small generic lemmas about getD, set, countP and the owned-index view of
the worker pool, proved here to keep the invariant proofs below
self-contained. -/

theorem getD_set_self {α : Type} (l : List α) (n : Nat) (a d : α)
    (h : n < l.length) : (l.set n a).getD n d = a := by
  induction l generalizing n with
  | nil => simp at h
  | cons b t ih =>
    cases n with
    | zero => rfl
    | succ m =>
      simp only [List.set_cons_succ, List.getD_cons_succ]
      exact ih m (by simpa using h)

theorem getD_set_ne {α : Type} (l : List α) (n m : Nat) (a d : α)
    (h : n ≠ m) : (l.set n a).getD m d = l.getD m d := by
  induction l generalizing n m with
  | nil => rfl
  | cons b t ih =>
    cases n with
    | zero =>
      cases m with
      | zero => exact absurd rfl h
      | succ k => rfl
    | succ n' =>
      cases m with
      | zero => rfl
      | succ k =>
        simp only [List.set_cons_succ, List.getD_cons_succ]
        exact ih n' k (by omega)

theorem getD_lt_of_ne {α : Type} {l : List α} {n : Nat} {d x : α}
    (h : l.getD n d = x) (hx : x ≠ d) : n < l.length := by
  by_contra hn
  push_neg at hn
  rw [List.getD_eq_default] at h
  · exact hx h.symm
  · exact hn

theorem getD_map_lt {α β : Type} (f : α → β) (l : List α) (n : Nat)
    (d : β) (d2 : α) (h : n < l.length) :
    (l.map f).getD n d = f (l.getD n d2) := by
  induction l generalizing n with
  | nil => simp at h
  | cons b t ih =>
    cases n with
    | zero => rfl
    | succ m =>
      simp only [List.map_cons, List.getD_cons_succ]
      exact ih m (by simpa using h)

theorem mem_of_mem_set {α : Type} {l : List α} {n : Nat} {b a : α}
    (h : a ∈ l.set n b) : a = b ∨ a ∈ l := by
  induction l generalizing n with
  | nil => simp at h
  | cons c t ih =>
    cases n with
    | zero =>
      rcases List.mem_cons.mp h with h0 | h0
      · exact Or.inl h0
      · exact Or.inr (List.mem_cons_of_mem c h0)
    | succ m =>
      rcases List.mem_cons.mp h with h0 | h0
      · exact Or.inr (h0 ▸ List.mem_cons_self c t)
      · rcases ih h0 with h1 | h1
        · exact Or.inl h1
        · exact Or.inr (List.mem_cons_of_mem c h1)

theorem getD_eq_default_of_all {α : Type} {l : List α} {d : α}
    (h : ∀ a ∈ l, a = d) (n : Nat) : l.getD n d = d := by
  induction l generalizing n with
  | nil => rfl
  | cons b t ih =>
    cases n with
    | zero => exact h b (List.mem_cons_self b t)
    | succ m =>
      simp only [List.getD_cons_succ]
      exact ih (fun a ha => h a (List.mem_cons_of_mem b ha)) m

theorem countP_set_same {α : Type} (p : α → Bool) (l : List α) (n : Nat)
    (a d : α) (hn : n < l.length) (h : p a = p (l.getD n d)) :
    (l.set n a).countP p = l.countP p := by
  induction l generalizing n with
  | nil => simp at hn
  | cons b t ih =>
    cases n with
    | zero =>
      simp only [List.getD_cons_zero] at h
      simp [List.countP_cons, h]
    | succ m =>
      simp only [List.getD_cons_succ] at h
      simp only [List.set_cons_succ, List.countP_cons]
      rw [ih m (by simpa using hn) h]

theorem countP_set_le {α : Type} (p : α → Bool) (l : List α) (n : Nat)
    (a : α) (h : p a = false) : (l.set n a).countP p ≤ l.countP p := by
  induction l generalizing n with
  | nil => simp
  | cons b t ih =>
    cases n with
    | zero =>
      simp only [List.set_cons_zero, List.countP_cons, h]
      simp only [List.countP_cons, h, Bool.false_eq_true, if_false, Nat.add_zero]
      split <;> omega
    | succ m =>
      simp only [List.set_cons_succ, List.countP_cons]
      have := ih m
      omega

theorem countP_replicate_true {α : Type} (p : α → Bool) (a : α)
    (h : p a = true) (m : Nat) : (List.replicate m a).countP p = m := by
  induction m with
  | zero => rfl
  | succ k ih => simp [List.replicate_succ, List.countP_cons, h, ih]

theorem mem_ownedIdx {ws : List WStatus} {j : Nat} :
    j ∈ ownedIdx ws ↔ ∃ v, ws.getD v .dead = .busy j := by
  induction ws with
  | nil =>
    simp only [ownedIdx, List.filterMap_nil, List.not_mem_nil, false_iff]
    rintro ⟨v, hv⟩
    simp [List.getD_nil] at hv
  | cons w t ih =>
    constructor
    · intro h
      rcases List.mem_filterMap.mp h with ⟨b, hb, htgt⟩
      rcases List.mem_cons.mp hb with h0 | h0
      · refine ⟨0, ?_⟩
        subst h0
        cases b with
        | busy k =>
          simp only [WStatus.target] at htgt
          simp only [List.getD_cons_zero]
          injection htgt with hk
          rw [hk]
        | dead => simp [WStatus.target] at htgt
        | idle => simp [WStatus.target] at htgt
      · have : j ∈ ownedIdx t := List.mem_filterMap.mpr ⟨b, h0, htgt⟩
        rcases ih.mp this with ⟨v, hv⟩
        exact ⟨v + 1, by simpa using hv⟩
    · rintro ⟨v, hv⟩
      cases v with
      | zero =>
        simp only [List.getD_cons_zero] at hv
        subst hv
        exact List.mem_filterMap.mpr ⟨.busy j, List.mem_cons_self _ _, rfl⟩
      | succ v' =>
        simp only [List.getD_cons_succ] at hv
        have : j ∈ ownedIdx t := ih.mpr ⟨v', hv⟩
        rcases List.mem_filterMap.mp this with ⟨b, hb, htgt⟩
        exact List.mem_filterMap.mpr ⟨b, List.mem_cons_of_mem w hb, htgt⟩

theorem ownedIdx_append (ws ws' : List WStatus) :
    ownedIdx (ws ++ ws') = ownedIdx ws ++ ownedIdx ws' := by
  simp [ownedIdx, List.filterMap_append]

theorem ownedIdx_replicate_idle (m : Nat) :
    ownedIdx (List.replicate m .idle) = [] := by
  induction m with
  | zero => rfl
  | succ k ih =>
    simp [ownedIdx, List.replicate_succ, List.filterMap_cons, WStatus.target]

/-! ## Engine invariants -/

/-- Invariant of every reachable engine state: queue and owned indices are
in range, every Processing row is owned by some busy worker, a nonempty
queue implies an active run, the concurrency constant is 3, a Completed
row has a fully populated classification, and an Error row has an error
message. -/
structure Inv (s : EngineState) : Prop where
  qlen : ∀ i ∈ s.queue, i < s.rows.length
  olen : ∀ j ∈ ownedIdx s.workers, j < s.rows.length
  proc_owned : ∀ j, j < s.rows.length →
    (s.rows.getD j freshRow).status = .processing → j ∈ ownedIdx s.workers
  qproc : s.queue ≠ [] → s.isProcessing = true
  mc : s.maxConcurrentRequests = 3
  comp_pop : ∀ j, j < s.rows.length →
    (s.rows.getD j freshRow).status = .completed →
    populatedRow (s.rows.getD j freshRow) = true
  err_msg : ∀ j, j < s.rows.length →
    (s.rows.getD j freshRow).status = .error →
    (s.rows.getD j freshRow).errorMessage.isSome = true

theorem initInv (n : Nat) : Inv (initEngine n) := by
  have hrow : ∀ j : Nat, ((initEngine n).rows.getD j freshRow) = freshRow := by
    intro j
    exact getD_eq_default_of_all (fun a ha => List.eq_of_mem_replicate ha) j
  refine ⟨?_, ?_, ?_, ?_, rfl, ?_, ?_⟩
  · intro i hi; simp [initEngine] at hi
  · intro j hj; simp [initEngine, ownedIdx] at hj
  · intro j _ hp; rw [hrow j] at hp; simp [freshRow] at hp
  · intro h; simp [initEngine] at h
  · intro j _ hc; rw [hrow j] at hc; simp [freshRow] at hc
  · intro j _ he; rw [hrow j] at he; simp [freshRow] at he

theorem stepInv {s : EngineState} {e : Ev} {u : EngineState}
    (hs : Step s e u) (inv : Inv s) : Inv u := by
  cases hs with
  | start batch hp hv =>
    refine ⟨?_, ?_, ?_, ?_, inv.mc, inv.comp_pop, inv.err_msg⟩
    · exact hv
    · intro j hj
      rw [doStart, ownedIdx_append, ownedIdx_replicate_idle, List.append_nil] at hj
      exact inv.olen j hj
    · intro j hjl hjp
      rw [doStart, ownedIdx_append, ownedIdx_replicate_idle, List.append_nil]
      exact inv.proc_owned j hjl hjp
    · intro _; rfl
  | dispatchSkip w i rest hw hst hpa hq hg =>
    refine ⟨?_, inv.olen, inv.proc_owned, ?_, inv.mc, inv.comp_pop, inv.err_msg⟩
    · intro i' hi'
      exact inv.qlen i' (hq ▸ List.mem_cons_of_mem i hi')
    · intro _
      exact inv.qproc (by rw [hq]; exact List.cons_ne_nil i rest)
  | dispatchRun w i rest hw hst hpa hq hg =>
    have hwlt : w < s.workers.length :=
      getD_lt_of_ne hw (by intro hc; cases hc)
    have hilt : i < s.rows.length :=
      inv.qlen i (hq ▸ List.mem_cons_self i rest)
    have hwrk : (doDispatch s w i rest).workers = s.workers.set w (.busy i) := rfl
    have hrws : (doDispatch s w i rest).rows =
        s.rows.set i (markProcessing (s.rows.getD i freshRow)) := rfl
    have hrowsi :
        ((doDispatch s w i rest).rows.getD i freshRow) =
          markProcessing (s.rows.getD i freshRow) := by
      rw [hrws]; exact getD_set_self _ _ _ _ hilt
    have hrowsne : ∀ j, j ≠ i →
        ((doDispatch s w i rest).rows.getD j freshRow) = s.rows.getD j freshRow := by
      intro j hj
      rw [hrws]; exact getD_set_ne _ _ _ _ _ (fun hij => hj hij.symm)
    have hlen : (doDispatch s w i rest).rows.length = s.rows.length := by
      rw [hrws]; exact List.length_set _ _ _
    refine ⟨?_, ?_, ?_, ?_, inv.mc, ?_, ?_⟩
    · intro i' hi'
      rw [hlen]
      exact inv.qlen i' (hq ▸ List.mem_cons_of_mem i hi')
    · intro j hj
      rw [hlen]
      rw [hwrk] at hj
      rcases mem_ownedIdx.mp hj with ⟨v, hv⟩
      by_cases hvw : v = w
      · rw [hvw, getD_set_self _ _ _ _ hwlt] at hv
        injection hv with hji
        exact hji ▸ hilt
      · rw [getD_set_ne _ _ _ _ _ (fun h => hvw h.symm)] at hv
        exact inv.olen j (mem_ownedIdx.mpr ⟨v, hv⟩)
    · intro j hjl hjp
      rw [hlen] at hjl
      rw [hwrk]
      by_cases hji : j = i
      · subst hji
        exact mem_ownedIdx.mpr ⟨w, getD_set_self _ _ _ _ hwlt⟩
      · rw [hrowsne j hji] at hjp
        rcases mem_ownedIdx.mp (inv.proc_owned j hjl hjp) with ⟨v, hv⟩
        have hvw : v ≠ w := by
          intro hvw
          rw [hvw, hw] at hv
          cases hv
        exact mem_ownedIdx.mpr
          ⟨v, by rw [getD_set_ne _ _ _ _ _ (fun h => hvw h.symm)]; exact hv⟩
    · intro _
      exact inv.qproc (by rw [hq]; exact List.cons_ne_nil i rest)
    · intro j hjl hjc
      rw [hlen] at hjl
      by_cases hji : j = i
      · subst hji
        rw [hrowsi] at hjc
        simp [markProcessing] at hjc
      · rw [hrowsne j hji] at hjc ⊢
        exact inv.comp_pop j hjl hjc
    · intro j hjl hje
      rw [hlen] at hjl
      by_cases hji : j = i
      · subst hji
        rw [hrowsi] at hje
        simp [markProcessing] at hje
      · rw [hrowsne j hji] at hje ⊢
        exact inv.err_msg j hjl hje
  | settle w i o hw =>
    have hwlt : w < s.workers.length :=
      getD_lt_of_ne hw (by intro hc; cases hc)
    have hilt : i < s.rows.length :=
      inv.olen i (mem_ownedIdx.mpr ⟨w, hw⟩)
    cases o with
    | ok pf el ml =>
      have hwrk : (doSettle s w i (.ok pf el ml)).workers = s.workers.set w .idle := rfl
      have hrws : (doSettle s w i (.ok pf el ml)).rows =
          s.rows.set i (applySuccess (s.rows.getD i freshRow) pf el ml) := rfl
      have hrowsi :
          ((doSettle s w i (.ok pf el ml)).rows.getD i freshRow) =
            applySuccess (s.rows.getD i freshRow) pf el ml := by
        rw [hrws]; exact getD_set_self _ _ _ _ hilt
      have hrowsne : ∀ j, j ≠ i →
          ((doSettle s w i (.ok pf el ml)).rows.getD j freshRow) =
            s.rows.getD j freshRow := by
        intro j hj
        rw [hrws]; exact getD_set_ne _ _ _ _ _ (fun hij => hj hij.symm)
      have hlen : (doSettle s w i (.ok pf el ml)).rows.length = s.rows.length := by
        rw [hrws]; exact List.length_set _ _ _
      refine ⟨?_, ?_, ?_, ?_, inv.mc, ?_, ?_⟩
      · intro i' hi'; rw [hlen]; exact inv.qlen i' hi'
      · intro j hj
        rw [hlen]
        rw [hwrk] at hj
        rcases mem_ownedIdx.mp hj with ⟨v, hv⟩
        by_cases hvw : v = w
        · rw [hvw, getD_set_self _ _ _ _ hwlt] at hv
          cases hv
        · rw [getD_set_ne _ _ _ _ _ (fun h => hvw h.symm)] at hv
          exact inv.olen j (mem_ownedIdx.mpr ⟨v, hv⟩)
      · intro j hjl hjp
        rw [hlen] at hjl
        rw [hwrk]
        by_cases hji : j = i
        · subst hji
          rw [hrowsi] at hjp
          simp [applySuccess] at hjp
        · rw [hrowsne j hji] at hjp
          rcases mem_ownedIdx.mp (inv.proc_owned j hjl hjp) with ⟨v, hv⟩
          have hvw : v ≠ w := by
            intro hvw
            rw [hvw, hw] at hv
            injection hv with hij
            exact hji hij.symm
          exact mem_ownedIdx.mpr
            ⟨v, by rw [getD_set_ne _ _ _ _ _ (fun h => hvw h.symm)]; exact hv⟩
      · intro h; exact inv.qproc h
      · intro j hjl hjc
        rw [hlen] at hjl
        by_cases hji : j = i
        · subst hji
          rw [hrowsi]
          simp [applySuccess, populatedRow]
        · rw [hrowsne j hji] at hjc ⊢
          exact inv.comp_pop j hjl hjc
      · intro j hjl hje
        rw [hlen] at hjl
        by_cases hji : j = i
        · subst hji
          rw [hrowsi] at hje
          simp [applySuccess] at hje
        · rw [hrowsne j hji] at hje ⊢
          exact inv.err_msg j hjl hje
    | err m =>
      have hwrk : (doSettle s w i (.err m)).workers = s.workers.set w .idle := rfl
      have hrws : (doSettle s w i (.err m)).rows =
          s.rows.set i (applyFailure (s.rows.getD i freshRow) m) := rfl
      have hrowsi :
          ((doSettle s w i (.err m)).rows.getD i freshRow) =
            applyFailure (s.rows.getD i freshRow) m := by
        rw [hrws]; exact getD_set_self _ _ _ _ hilt
      have hrowsne : ∀ j, j ≠ i →
          ((doSettle s w i (.err m)).rows.getD j freshRow) =
            s.rows.getD j freshRow := by
        intro j hj
        rw [hrws]; exact getD_set_ne _ _ _ _ _ (fun hij => hj hij.symm)
      have hlen : (doSettle s w i (.err m)).rows.length = s.rows.length := by
        rw [hrws]; exact List.length_set _ _ _
      refine ⟨?_, ?_, ?_, ?_, inv.mc, ?_, ?_⟩
      · intro i' hi'; rw [hlen]; exact inv.qlen i' hi'
      · intro j hj
        rw [hlen]
        rw [hwrk] at hj
        rcases mem_ownedIdx.mp hj with ⟨v, hv⟩
        by_cases hvw : v = w
        · rw [hvw, getD_set_self _ _ _ _ hwlt] at hv
          cases hv
        · rw [getD_set_ne _ _ _ _ _ (fun h => hvw h.symm)] at hv
          exact inv.olen j (mem_ownedIdx.mpr ⟨v, hv⟩)
      · intro j hjl hjp
        rw [hlen] at hjl
        rw [hwrk]
        by_cases hji : j = i
        · subst hji
          rw [hrowsi] at hjp
          simp [applyFailure] at hjp
        · rw [hrowsne j hji] at hjp
          rcases mem_ownedIdx.mp (inv.proc_owned j hjl hjp) with ⟨v, hv⟩
          have hvw : v ≠ w := by
            intro hvw
            rw [hvw, hw] at hv
            injection hv with hij
            exact hji hij.symm
          exact mem_ownedIdx.mpr
            ⟨v, by rw [getD_set_ne _ _ _ _ _ (fun h => hvw h.symm)]; exact hv⟩
      · intro h; exact inv.qproc h
      · intro j hjl hjc
        rw [hlen] at hjl
        by_cases hji : j = i
        · subst hji
          rw [hrowsi] at hjc
          simp [applyFailure] at hjc
        · rw [hrowsne j hji] at hjc ⊢
          exact inv.comp_pop j hjl hjc
      · intro j hjl hje
        rw [hlen] at hjl
        by_cases hji : j = i
        · subst hji
          rw [hrowsi]
          simp [applyFailure]
        · rw [hrowsne j hji] at hje ⊢
          exact inv.err_msg j hjl hje
  | pause hp =>
    exact ⟨inv.qlen, inv.olen, inv.proc_owned, fun _ => hp, inv.mc,
      inv.comp_pop, inv.err_msg⟩
  | resume hp hpa =>
    exact ⟨inv.qlen, inv.olen, inv.proc_owned, fun _ => hp, inv.mc,
      inv.comp_pop, inv.err_msg⟩
  | stop hp =>
    have hrws : (doStop s).rows = s.rows.map resetIfProcessing := rfl
    have hlen : (doStop s).rows.length = s.rows.length := by
      rw [hrws]; exact List.length_map _ _
    have hrow : ∀ j, j < s.rows.length →
        ((doStop s).rows.getD j freshRow) =
          resetIfProcessing (s.rows.getD j freshRow) := by
      intro j hj
      rw [hrws]; exact getD_map_lt _ _ _ _ _ hj
    refine ⟨?_, ?_, ?_, ?_, inv.mc, ?_, ?_⟩
    · intro i hi; simp [doStop] at hi
    · intro j hj; rw [hlen]; exact inv.olen j hj
    · intro j hjl hjp
      rw [hlen] at hjl
      rw [hrow j hjl] at hjp
      unfold resetIfProcessing at hjp
      by_cases hproc : (s.rows.getD j freshRow).status = .processing
      · rw [if_pos hproc] at hjp
        exact absurd hjp (by simp)
      · rw [if_neg hproc] at hjp
        exact absurd hjp hproc
    · intro h; simp [doStop] at h
    · intro j hjl hjc
      rw [hlen] at hjl
      rw [hrow j hjl] at hjc ⊢
      unfold resetIfProcessing at hjc ⊢
      by_cases hproc : (s.rows.getD j freshRow).status = .processing
      · rw [if_pos hproc] at hjc
        exact absurd hjc (by simp)
      · rw [if_neg hproc] at hjc ⊢
        exact inv.comp_pop j hjl hjc
    · intro j hjl hje
      rw [hlen] at hjl
      rw [hrow j hjl] at hje ⊢
      unfold resetIfProcessing at hje ⊢
      by_cases hproc : (s.rows.getD j freshRow).status = .processing
      · rw [if_pos hproc] at hje
        exact absurd hje (by simp)
      · rw [if_neg hproc] at hje ⊢
        exact inv.err_msg j hjl hje
  | finish hp hq hwk =>
    refine ⟨inv.qlen, inv.olen, inv.proc_owned, ?_, inv.mc,
      inv.comp_pop, inv.err_msg⟩
    intro h
    exact absurd hq h
  | exitW w hw hc =>
    have hwlt : w < s.workers.length :=
      getD_lt_of_ne hw (by intro hcon; cases hcon)
    have hwrk : (doExit s w).workers = s.workers.set w .dead := rfl
    refine ⟨inv.qlen, ?_, ?_, inv.qproc, inv.mc, inv.comp_pop, inv.err_msg⟩
    · intro j hj
      rw [hwrk] at hj
      rcases mem_ownedIdx.mp hj with ⟨v, hv⟩
      by_cases hvw : v = w
      · rw [hvw, getD_set_self _ _ _ _ hwlt] at hv
        cases hv
      · rw [getD_set_ne _ _ _ _ _ (fun h => hvw h.symm)] at hv
        exact inv.olen j (mem_ownedIdx.mpr ⟨v, hv⟩)
    · intro j hjl hjp
      rw [hwrk]
      rcases mem_ownedIdx.mp (inv.proc_owned j hjl hjp) with ⟨v, hv⟩
      have hvw : v ≠ w := by
        intro hvw
        rw [hvw, hw] at hv
        cases hv
      exact mem_ownedIdx.mpr
        ⟨v, by rw [getD_set_ne _ _ _ _ _ (fun h => hvw h.symm)]; exact hv⟩

theorem engineInv {n : Nat} {evs : List Ev} {s : EngineState}
    (h : ReachableE (initEngine n) evs s) : Inv s := by
  induction h with
  | refl => exact initInv n
  | tail _ hs ih => exact stepInv hs ih

/-- In any state satisfying the invariant, the number of Processing rows
is at most the number of busy workers: Processing rows inject into the
owned-index list. -/
theorem processing_le_busy {s : EngineState} (inv : Inv s) :
    processingCount s ≤ busyCount s := by
  classical
  have hsub : (Finset.range s.rows.length).filter
      (fun j => (s.rows.getD j freshRow).status = .processing) ⊆
        (ownedIdx s.workers).toFinset := by
    intro j hj
    simp only [Finset.mem_filter, Finset.mem_range] at hj
    exact List.mem_toFinset.mpr (inv.proc_owned j hj.1 hj.2)
  calc processingCount s ≤ (ownedIdx s.workers).toFinset.card :=
        Finset.card_le_card hsub
    _ ≤ (ownedIdx s.workers).length := List.toFinset_card_le _

/-- Busy workers are alive, so the busy count is at most the alive
count. -/
theorem busy_le_alive (ws : List WStatus) :
    (ownedIdx ws).length ≤ ws.countP aliveW := by
  induction ws with
  | nil => simp [ownedIdx]
  | cons w t ih =>
    cases w with
    | dead =>
      simp [ownedIdx, List.filterMap_cons, WStatus.target,
        List.countP_cons, aliveW] at ih ⊢
      omega
    | idle =>
      simp [ownedIdx, List.filterMap_cons, WStatus.target,
        List.countP_cons, aliveW] at ih ⊢
      omega
    | busy i =>
      simp [ownedIdx, List.filterMap_cons, WStatus.target,
        List.countP_cons, aliveW, List.length_cons] at ih ⊢
      omega

/-- Stop-free invariant: along a trace that contains no stop event, at
most three workers are alive (pending and busy together), and when no run
is active every worker is dead (completeAnalysis resolves only after
Promise.all over the run's workers, which is all alive workers when no
earlier run was stopped). -/
structure NSInv (s : EngineState) : Prop where
  alive_le : aliveCount s ≤ 3
  all_dead : s.isProcessing = false → ∀ st ∈ s.workers, st = WStatus.dead

theorem initNSInv (n : Nat) : NSInv (initEngine n) := by
  constructor
  · simp [aliveCount, initEngine]
  · intro _ st hst
    simp [initEngine] at hst

theorem nsStepInv {s : EngineState} {e : Ev} {u : EngineState}
    (hs : Step s e u) (hne : e ≠ .stop) (inv : Inv s) (ns : NSInv s) :
    NSInv u := by
  cases hs with
  | start batch hp hv =>
    constructor
    · have hdead := ns.all_dead hp
      have hzero : s.workers.countP aliveW = 0 := by
        rw [List.countP_eq_zero]
        intro a ha
        rw [hdead a ha]
        simp [aliveW]
      have hrep : (List.replicate (min s.maxConcurrentRequests batch.length)
          WStatus.idle).countP aliveW =
            min s.maxConcurrentRequests batch.length :=
        countP_replicate_true _ _ rfl _
      have : aliveCount (doStart s batch) =
          min s.maxConcurrentRequests batch.length := by
        simp only [aliveCount, doStart, List.countP_append, hzero, hrep]
        omega
      rw [this, inv.mc]
      exact Nat.le_trans (Nat.min_le_left _ _) (Nat.le_refl 3)
    · intro h
      simp [doStart] at h
  | dispatchSkip w i rest hw hst hpa hq hg =>
    constructor
    · exact ns.alive_le
    · intro h
      have := inv.qproc (by rw [hq]; exact List.cons_ne_nil i rest)
      simp only [doSkip] at h
      rw [this] at h
      cases h
  | dispatchRun w i rest hw hst hpa hq hg =>
    have hwlt : w < s.workers.length :=
      getD_lt_of_ne hw (by intro hc; cases hc)
    constructor
    · have : aliveCount (doDispatch s w i rest) = aliveCount s := by
        simp only [aliveCount, doDispatch]
        exact countP_set_same aliveW s.workers w (.busy i) .dead hwlt
          (by rw [hw]; rfl)
      rw [this]
      exact ns.alive_le
    · intro h
      have := inv.qproc (by rw [hq]; exact List.cons_ne_nil i rest)
      simp only [doDispatch] at h
      rw [this] at h
      cases h
  | settle w i o hw =>
    have hwlt : w < s.workers.length :=
      getD_lt_of_ne hw (by intro hc; cases hc)
    have hwrk : (doSettle s w i o).workers = s.workers.set w .idle := by
      cases o <;> rfl
    have hflag : (doSettle s w i o).isProcessing = s.isProcessing := by
      cases o <;> rfl
    constructor
    · have : aliveCount (doSettle s w i o) = aliveCount s := by
        simp only [aliveCount, hwrk]
        exact countP_set_same aliveW s.workers w .idle .dead hwlt
          (by rw [hw]; rfl)
      rw [this]
      exact ns.alive_le
    · intro h
      rw [hflag] at h
      have hdead := ns.all_dead h
      have := getD_eq_default_of_all hdead w
      rw [this] at hw
      cases hw
  | pause hp =>
    constructor
    · exact ns.alive_le
    · intro h
      simp only [doPause] at h
      rw [hp] at h
      cases h
  | resume hp hpa =>
    constructor
    · exact ns.alive_le
    · intro h
      simp only [doResume] at h
      rw [hp] at h
      cases h
  | stop hp => exact absurd rfl hne
  | finish hp hq hwk =>
    constructor
    · exact ns.alive_le
    · intro _
      exact hwk
  | exitW w hw hc =>
    constructor
    · have : aliveCount (doExit s w) ≤ aliveCount s := by
        simp only [aliveCount, doExit]
        exact countP_set_le aliveW s.workers w .dead rfl
      exact Nat.le_trans this ns.alive_le
    · intro h
      have hdead := ns.all_dead h
      have hcontra := getD_eq_default_of_all hdead w
      rw [hcontra] at hw
      cases hw

theorem engineNSInv {n : Nat} {evs : List Ev} {s : EngineState}
    (h : ReachableE (initEngine n) evs s) (hns : Ev.stop ∉ evs) : NSInv s := by
  induction h with
  | refl => exact initNSInv n
  | tail hr hs ih =>
    rw [List.mem_cons] at hns
    push_neg at hns
    exact nsStepInv hs (fun he => hns.1 he.symm) (engineInv hr) (ih hns.2)

/-! ## Claim C3: retry count and linear backoff -/

/-- When every attempt from the current one onwards fails with a retryable
error, the remainder of the makeRequest loop performs one attempt per
remaining budget unit, waiting d times the attempt number before each
attempt numbered at least one, and finally reports the last error. -/
theorem runAttempts_allFail (f : Nat → ReqOutcome ScrapeResult) (d : Nat)
    (msgf : Nat → String)
    (hf : ∀ k, f k = .err (msgf k)) (hr : ∀ k, shouldNotRetry (msgf k) = false) :
    ∀ remaining attempt acc, 1 ≤ attempt →
      runAttempts f d attempt remaining acc =
        (.error (msgf (attempt + remaining)), attempt + remaining + 1,
          acc ++ (List.range' attempt (remaining + 1)).map (fun a => d * a)) := by
  intro remaining
  induction remaining with
  | zero =>
    intro attempt acc ha
    have hpos : attempt > 0 := ha
    rw [runAttempts]
    simp only [hf attempt, hr attempt, if_pos hpos,
      Bool.false_eq_true, if_false, Nat.add_zero]
    simp [List.range']
  | succ n ih =>
    intro attempt acc ha
    have hpos : attempt > 0 := ha
    rw [runAttempts]
    simp only [hf attempt, hr attempt, if_pos hpos,
      Bool.false_eq_true, if_false]
    rw [ih (attempt + 1) (acc ++ [d * attempt]) (by omega)]
    have h1 : attempt + 1 + n = attempt + (n + 1) := by omega
    rw [h1]
    have h2 : (List.range' attempt (n + 1 + 1)).map (fun a => d * a) =
        d * attempt :: (List.range' (attempt + 1) (n + 1)).map (fun a => d * a) := by
      rw [List.range'_succ]
      rfl
    rw [h2, List.append_assoc]
    rfl

/-- Claim C3: for every request whose attempts all fail with a retryable
error, ApiClient.makeRequest performs exactly retries plus one attempts
(three with the default two retries), and before retry attempt number k
it waits a linear backoff delay of k times the base delay (default base
2000 ms); the delays waited are exactly d*1, ..., d*retries in order. -/
theorem C3_retry_policy : ∀ (retries d : Nat) (msgf : Nat → String)
    (f : Nat → ReqOutcome ScrapeResult),
    (∀ k, f k = .err (msgf k)) → (∀ k, shouldNotRetry (msgf k) = false) →
    makeRequestModel f d retries =
      (.error (msgf retries), retries + 1,
        (List.range' 1 retries).map (fun a => d * a)) := by
  intro retries d msgf f hf hr
  cases retries with
  | zero =>
    rw [makeRequestModel, runAttempts]
    simp only [hf 0, hr 0, Bool.false_eq_true, if_false, gt_iff_lt,
      lt_self_iff_false, Nat.zero_add]
    rfl
  | succ n =>
    rw [makeRequestModel, runAttempts]
    simp only [hf 0, hr 0, Bool.false_eq_true, if_false, gt_iff_lt,
      lt_self_iff_false, Nat.zero_add]
    rw [runAttempts_allFail f d msgf hf hr n 1 [] (by omega)]
    have h1 : 1 + n = n + 1 := by omega
    rw [h1]
    rfl

/-- Witness for C3 at the source defaults: base 2000, two retries, a plain
network failure on every attempt: three attempts, delays 2000 then 4000
ms. -/
theorem C3_retry_policy_witness :
    makeRequestModel (fun _ => .err "Network connection failed") 2000 2 =
      (.error "Network connection failed", 3, [2000, 4000]) := by
  have h := C3_retry_policy 2 2000 (fun _ => "Network connection failed")
    (fun _ => .err "Network connection failed") (fun _ => rfl)
    (fun _ => by
      show shouldNotRetry "Network connection failed" = false
      decide)
  rw [h]
  rfl

/-! ## Claim C1: retry exhaustion yields a terminal all-Error value -/

/-- When every navigation attempt throws, the scrape navigation loop makes
its three attempts (waiting 3000 then 6000 ms between them) and reports
the third attempt's error. -/
theorem navLoop_allFail (nav : Nat → Except String (Nat × Dom))
    (msgf : Nat → String) (h : ∀ k, nav k = .error (msgf k)) :
    navLoopGo nav 1 2 [] = (.error (msgf 3), [3000, 6000]) := by
  rw [navLoopGo]
  simp only [navStep, h 1]
  rw [navLoopGo]
  simp only [navStep, h 2]
  rw [navLoopGo]
  simp only [navStep, h 3]
  norm_num

/-- Claim C1: for every valid target whose every render attempt fails with
a transient error, scrapeEbayURL returns (does not throw) the terminal
createErrorResult classification, in which all three predicates are the
string Error and an error message is attached; and on the orchestrator
side a settlement with a failure is an ordinary step: it leaves the
queue, the stop flag and the processing flag untouched (so the remaining
batch items continue to be processed) and records the error on the
settled Job. -/
theorem C1_terminal_error_result :
    (∀ (url : String) (nav : Nat → Except String (Nat × Dom)) (msgf : Nat → String),
      ebayUrlTest url = true → (∀ k, nav k = .error (msgf k)) →
      scrapeEbayURL url nav = .ok (createErrorResult (msgf 3)) ∧
      (createErrorResult (msgf 3)).productFiche = "Error" ∧
      (createErrorResult (msgf 3)).energyLabel = "Error" ∧
      (createErrorResult (msgf 3)).mouseoverLabel = "Error" ∧
      (createErrorResult (msgf 3)).error.isSome = true) ∧
    (∀ (s : EngineState) (w i : Nat) (m : String),
      i < s.rows.length →
      s.workers.getD w .dead = .busy i →
      Step s (.settle w (.err m)) (doSettle s w i (.err m)) ∧
      (doSettle s w i (.err m)).queue = s.queue ∧
      (doSettle s w i (.err m)).isStopped = s.isStopped ∧
      (doSettle s w i (.err m)).isProcessing = s.isProcessing ∧
      ((doSettle s w i (.err m)).rows.getD i freshRow).status = .error ∧
      ((doSettle s w i (.err m)).rows.getD i freshRow).errorMessage = some m) := by
  constructor
  · intro url nav msgf hurl hnav
    refine ⟨?_, rfl, rfl, rfl, rfl⟩
    rw [scrapeEbayURL, hurl]
    simp only [Bool.not_true, Bool.false_eq_true, if_false]
    rw [navLoop_allFail nav msgf hnav]
  · intro s w i m hilt hw
    have hrws : (doSettle s w i (.err m)).rows =
        s.rows.set i (applyFailure (s.rows.getD i freshRow) m) := rfl
    have hgi : (doSettle s w i (.err m)).rows.getD i freshRow =
        applyFailure (s.rows.getD i freshRow) m := by
      rw [hrws]
      exact getD_set_self _ _ _ _ hilt
    exact ⟨Step.settle s w i (.err m) hw, rfl, rfl, rfl,
      by rw [hgi]; rfl, by rw [hgi]; rfl⟩

/-- Demonstration state for the orchestrator half of the C1 witness: one
fresh row, one worker busy on it. -/
def c1s : EngineState :=
  ⟨[freshRow], [], [.busy 0], true, false, false, 0, 0, 0, 3⟩

/-- Witness for C1: a valid listing URL whose navigation always fails with
a socket error yields the all-Error value, and settling that failure in
the engine leaves the run going and marks the row. -/
theorem C1_terminal_error_result_witness :
    (scrapeEbayURL "https://www.ebay.de/itm/12345"
        (fun _ => .error "socket hang up") =
      .ok (createErrorResult "socket hang up") ∧
      (createErrorResult "socket hang up").productFiche = "Error" ∧
      (createErrorResult "socket hang up").energyLabel = "Error" ∧
      (createErrorResult "socket hang up").mouseoverLabel = "Error" ∧
      (createErrorResult "socket hang up").error.isSome = true) ∧
    (Step c1s (.settle 0 (.err "socket hang up"))
        (doSettle c1s 0 0 (.err "socket hang up")) ∧
      (doSettle c1s 0 0 (.err "socket hang up")).queue = c1s.queue ∧
      (doSettle c1s 0 0 (.err "socket hang up")).isStopped = c1s.isStopped ∧
      (doSettle c1s 0 0 (.err "socket hang up")).isProcessing = c1s.isProcessing ∧
      ((doSettle c1s 0 0 (.err "socket hang up")).rows.getD 0 freshRow).status = .error ∧
      ((doSettle c1s 0 0 (.err "socket hang up")).rows.getD 0 freshRow).errorMessage =
        some "socket hang up") :=
  ⟨C1_terminal_error_result.1 "https://www.ebay.de/itm/12345"
      (fun _ => .error "socket hang up") (fun _ => "socket hang up")
      (by decide) (fun _ => rfl),
   C1_terminal_error_result.2 c1s 0 0 "socket hang up" (by decide) rfl⟩

/-! ## Claim C2: in-flight de-duplication and settlement removal -/

theorem lookup_filter_self (l : List (String × Nat)) (url : String) :
    (l.filter fun p => p.1 != url).lookup url = none := by
  induction l with
  | nil => rfl
  | cons a t ih =>
    obtain ⟨k, v⟩ := a
    by_cases h : k = url
    · simp only [List.filter_cons]
      rw [if_neg (by simpa using h)]
      exact ih
    · simp only [List.filter_cons]
      rw [if_pos (by simpa using h)]
      simp only [List.lookup_cons]
      rw [show (url == k) = false from
        beq_eq_false_iff_ne.mpr fun he => h he.symm]
      exact ih

theorem lookup_filter_ne (l : List (String × Nat)) (url u : String)
    (h : u ≠ url) :
    (l.filter fun p => p.1 != url).lookup u = l.lookup u := by
  induction l with
  | nil => rfl
  | cons a t ih =>
    obtain ⟨k, v⟩ := a
    by_cases ha : k = url
    · have hua : u ≠ k := fun he => h (he.trans ha)
      simp only [List.filter_cons]
      rw [if_neg (by simpa using ha)]
      rw [ih]
      simp only [List.lookup_cons]
      rw [show (u == k) = false from beq_eq_false_iff_ne.mpr hua]
    · simp only [List.filter_cons]
      rw [if_pos (by simpa using ha)]
      simp only [List.lookup_cons]
      by_cases hu : u = k
      · rw [show (u == k) = true from beq_iff_eq.mpr hu]
      · rw [show (u == k) = false from beq_eq_false_iff_ne.mpr hu]
        exact ih

/-- Claim C2 (amended): if a request for a URL is already in flight, a
second analyzeURL call returns the same stored handle and changes nothing
(in particular no second underlying request is started during the
overlap); and the settlement handler removes exactly that URL's registry
entry, identically for success and failure and independently of how many
callers awaited the promise. The original claim's further statement that
the entry is removed | exactly | when the operation settles fails on the
code: cancelAllRequests (run by stopAnalysis) clears entries of
operations that have not settled (see the counterexample). -/
theorem C2_dedup_amended : ∀ (s : ClientState) (url : String) (h : Nat),
    s.active.lookup url = some h →
    (analyzeURLcall s url = (h, s) ∧
     (analyzeURLcall s url).2.nextId = s.nextId) ∧
    (∀ o : ReqResult,
      (settleRequest s url o).active.lookup url = none ∧
      settleRequest s url o = settleRequest s url .success ∧
      ∀ u : String, u ≠ url →
        (settleRequest s url o).active.lookup u = s.active.lookup u) := by
  intro s url h hlk
  constructor
  · constructor
    · rw [analyzeURLcall, hlk]
    · rw [analyzeURLcall, hlk]
  · intro o
    refine ⟨lookup_filter_self s.active url, rfl, ?_⟩
    intro u hu
    exact lookup_filter_ne s.active url u hu

/-- Counterexample to C2 as stated: the claim says the in-flight registry
entry is removed exactly when the underlying operation settles. But
cancelAllRequests, which stopAnalysis invokes on every stop, clears the
registry without any settlement: below, a request for a URL is started
(handle 0, entry present), cancelAllRequests removes the entry although
no settleRequest occurs anywhere in the term, and a subsequent call for
the same URL then starts a second underlying request (handle 1) while the
first is still outstanding. -/
theorem C2_counterexample :
    ((analyzeURLcall emptyClient "https://www.ebay.de/itm/1").2).active.lookup
        "https://www.ebay.de/itm/1" = some 0 ∧
    ((cancelAllRequests
        (analyzeURLcall emptyClient "https://www.ebay.de/itm/1").2).active.lookup
        "https://www.ebay.de/itm/1") = none ∧
    (analyzeURLcall
        (cancelAllRequests (analyzeURLcall emptyClient "https://www.ebay.de/itm/1").2)
        "https://www.ebay.de/itm/1").1 = 1 := by
  decide

/-- Witness for the amended C2 at a concrete one-entry registry. -/
theorem C2_dedup_amended_witness :
    (analyzeURLcall ⟨[("u", 7)], 8⟩ "u" = (7, ⟨[("u", 7)], 8⟩) ∧
      (analyzeURLcall ⟨[("u", 7)], 8⟩ "u").2.nextId = 8) ∧
    (settleRequest ⟨[("u", 7)], 8⟩ "u" .failure).active.lookup "u" = none ∧
    (settleRequest ⟨[("u", 7)], 8⟩ "u" .failure).active.lookup "v" =
      (⟨[("u", 7)], 8⟩ : ClientState).active.lookup "v" := by
  have h := C2_dedup_amended ⟨[("u", 7)], 8⟩ "u" 7 (by decide)
  exact ⟨h.1, (h.2 .failure).1, (h.2 .failure).2.2 "v" (by decide)⟩

/-! ## Claim C4: stop semantics -/

/-- Claim C4 (amended): the stop transition clears the queue, leaves every
counter untouched, keeps Pending rows Pending, creates no Error and no
Completed row, and no dispatch step is possible from the post-stop state;
however (original claim refuted, see the counterexample) an operation in
flight at the stop still settles later, moving its Job, which the stop
had reset to Pending, to Completed or Error and incrementing the run
counters. -/
theorem C4_stop_amended : ∀ (s u : EngineState), Step s .stop u →
    (u.queue = [] ∧ u.processedRows = s.processedRows ∧
     u.successfulRows = s.successfulRows ∧ u.errorRows = s.errorRows ∧
     (∀ j, j < s.rows.length →
        (s.rows.getD j freshRow).status = .pending →
        (u.rows.getD j freshRow).status = .pending) ∧
     (∀ j, j < s.rows.length →
        (u.rows.getD j freshRow).status = .error →
        (s.rows.getD j freshRow).status = .error) ∧
     (∀ j, j < s.rows.length →
        (u.rows.getD j freshRow).status = .completed →
        (s.rows.getD j freshRow).status = .completed)) ∧
    (∀ (w : Nat) (v : EngineState), ¬ Step u (.dispatch w) v) := by
  intro s u hstep
  cases hstep with
  | stop hp =>
    have hrow : ∀ j, j < s.rows.length →
        ((doStop s).rows.getD j freshRow) =
          resetIfProcessing (s.rows.getD j freshRow) := by
      intro j hj
      exact getD_map_lt _ _ _ _ _ hj
    refine ⟨⟨rfl, rfl, rfl, rfl, ?_, ?_, ?_⟩, ?_⟩
    · intro j hjl hjp
      rw [hrow j hjl]
      unfold resetIfProcessing
      rw [if_neg (by rw [hjp]; intro hc; cases hc)]
      exact hjp
    · intro j hjl hje
      rw [hrow j hjl] at hje
      unfold resetIfProcessing at hje
      by_cases hproc : (s.rows.getD j freshRow).status = .processing
      · rw [if_pos hproc] at hje
        cases hje
      · rw [if_neg hproc] at hje
        exact hje
    · intro j hjl hjc
      rw [hrow j hjl] at hjc
      unfold resetIfProcessing at hjc
      by_cases hproc : (s.rows.getD j freshRow).status = .processing
      · rw [if_pos hproc] at hjc
        cases hjc
      · rw [if_neg hproc] at hjc
        exact hjc
    · intro w v hd
      cases hd with
      | dispatchSkip w i rest hw hst hpa hq hg => cases hq
      | dispatchRun w i rest hw hst hpa hq hg => cases hq

/-- The concrete stop counterexample trace: one row, one worker; the row
is dispatched, the user stops (the row reverts to Pending, the counters
are zero), and then the in-flight request fails. -/
def c4s1 : EngineState := doStart (initEngine 1) [0]
def c4s2 : EngineState := doDispatch c4s1 0 0 []
def c4s3 : EngineState := doStop c4s2
def c4s4 : EngineState :=
  doSettle c4s3 0 0 (.err "Request timeout - page took too long to load")

/-- Counterexample to C4 as stated: after stop() the claim requires every
still-Pending Job to stay Pending (never Error) and the final counters to
reflect only Jobs terminal before the stop. In the reachable post-stop
state c4s3 the only Job is Pending and the counters are zero, yet the
still-outstanding request of the worker settles with a failure
afterwards, making the Job Error and advancing errorRows and
processedRows to one. -/
theorem C4_counterexample :
    ReachableE (initEngine 1) [Ev.stop, Ev.dispatch 0, Ev.start [0]] c4s3 ∧
    (c4s3.rows.getD 0 freshRow).status = .pending ∧
    c4s3.isStopped = true ∧ c4s3.errorRows = 0 ∧ c4s3.processedRows = 0 ∧
    Step c4s3 (.settle 0 (.err "Request timeout - page took too long to load")) c4s4 ∧
    (c4s4.rows.getD 0 freshRow).status = .error ∧
    (c4s4.rows.getD 0 freshRow).errorMessage =
      some "Request timeout - page took too long to load" ∧
    c4s4.errorRows = 1 ∧ c4s4.processedRows = 1 := by
  refine ⟨?_, by decide, by decide, by decide, by decide, ?_, by decide,
    by decide, by decide, by decide⟩
  · exact ReachableE.tail
      (ReachableE.tail
        (ReachableE.tail (ReachableE.refl _)
          (Step.start (initEngine 1) [0] rfl (by decide)))
        (Step.dispatchRun c4s1 0 0 [] rfl rfl rfl rfl (by decide)))
      (Step.stop c4s2 rfl)
  · exact Step.settle c4s3 0 0 _ (by decide)

/-- Witness for the amended C4 at a concrete running state with one
Pending row, fully instantiated. -/
theorem C4_stop_amended_witness :
    (doStop c4s1).queue = [] ∧
    (doStop c4s1).errorRows = c4s1.errorRows ∧
    ((doStop c4s1).rows.getD 0 freshRow).status = .pending ∧
    ¬ Step (doStop c4s1) (.dispatch 0) (doSkip (doStop c4s1) []) := by
  have h := C4_stop_amended c4s1 (doStop c4s1) (Step.stop c4s1 rfl)
  exact ⟨h.1.1, h.1.2.2.2.1, h.1.2.2.2.2.1 0 (by decide) (by decide),
    h.2 0 (doSkip (doStop c4s1) [])⟩

/-! ## Claim C5: the concurrency bound -/

/-- Claim C5 (amended): in every reachable state the number of Jobs with
status Processing is bounded by the number of busy workers; and along any
trace that contains no stop event at most three workers are alive, so at
most maxConcurrentRequests = 3 Jobs are Processing simultaneously. The
unrestricted bound of the original claim fails (see the counterexample):
a run stopped while a request is in flight leaves its worker coroutine
alive, and when a new run starts and the old request settles, the old
worker re-enters its loop and pulls from the new queue alongside the new
workers. -/
theorem C5_concurrency_amended : ∀ (n : Nat) (evs : List Ev) (s : EngineState),
    ReachableE (initEngine n) evs s →
    processingCount s ≤ busyCount s ∧
    (Ev.stop ∉ evs →
      processingCount s ≤ 3 ∧ aliveCount s ≤ 3) := by
  intro n evs s h
  have inv := engineInv h
  refine ⟨processing_le_busy inv, ?_⟩
  intro hns
  have ns := engineNSInv h hns
  constructor
  · calc processingCount s ≤ busyCount s := processing_le_busy inv
      _ ≤ aliveCount s := busy_le_alive s.workers
      _ ≤ 3 := ns.alive_le
  · exact ns.alive_le

/-- The zombie-worker counterexample trace: a one-item run is started and
stopped while its single worker awaits its request; a four-item run is
then started with three fresh workers; when the old request settles, the
old worker finds a nonempty queue and a cleared stop flag and dispatches
the fourth item, giving four simultaneously Processing Jobs. -/
def c5s1 : EngineState := doStart (initEngine 5) [0]
def c5s2 : EngineState := doDispatch c5s1 0 0 []
def c5s3 : EngineState := doStop c5s2
def c5s4 : EngineState := doStart c5s3 [1, 2, 3, 4]
def c5s5 : EngineState := doDispatch c5s4 1 1 [2, 3, 4]
def c5s6 : EngineState := doDispatch c5s5 2 2 [3, 4]
def c5s7 : EngineState := doDispatch c5s6 3 3 [4]
def c5s8 : EngineState := doSettle c5s7 0 0 (.err "Network connection failed")
def c5s9 : EngineState := doDispatch c5s8 0 4 []

/-- Counterexample to C5 as stated: the claim bounds the number of
simultaneously Processing Jobs during a run by maxConcurrency = 3, but
the reachable state c5s9 is inside an active run and has four Processing
Jobs. -/
theorem C5_counterexample :
    ReachableE (initEngine 5)
      [Ev.dispatch 0, Ev.settle 0 (.err "Network connection failed"),
       Ev.dispatch 3, Ev.dispatch 2, Ev.dispatch 1, Ev.start [1, 2, 3, 4],
       Ev.stop, Ev.dispatch 0, Ev.start [0]] c5s9 ∧
    c5s9.isProcessing = true ∧
    c5s9.maxConcurrentRequests = 3 ∧
    processingCount c5s9 = 4 := by
  refine ⟨?_, by decide, by decide, by decide⟩
  exact ReachableE.tail
    (ReachableE.tail
      (ReachableE.tail
        (ReachableE.tail
          (ReachableE.tail
            (ReachableE.tail
              (ReachableE.tail
                (ReachableE.tail
                  (ReachableE.tail (ReachableE.refl _)
                    (Step.start (initEngine 5) [0] rfl (by decide)))
                  (Step.dispatchRun c5s1 0 0 [] rfl rfl rfl rfl (by decide)))
                (Step.stop c5s2 rfl))
              (Step.start c5s3 [1, 2, 3, 4] rfl (by decide)))
            (Step.dispatchRun c5s4 1 1 [2, 3, 4] rfl rfl rfl rfl (by decide)))
          (Step.dispatchRun c5s5 2 2 [3, 4] rfl rfl rfl rfl (by decide)))
        (Step.dispatchRun c5s6 3 3 [4] rfl rfl rfl rfl (by decide)))
      (Step.settle c5s7 0 0 (.err "Network connection failed") rfl))
    (Step.dispatchRun c5s8 0 4 [] rfl rfl rfl rfl (by decide))

/-- Witness for the amended C5 at the empty trace of a one-row engine. -/
theorem C5_concurrency_amended_witness :
    processingCount (initEngine 1) ≤ busyCount (initEngine 1) ∧
    processingCount (initEngine 1) ≤ 3 ∧ aliveCount (initEngine 1) ≤ 3 := by
  have h := C5_concurrency_amended 1 [] (initEngine 1) (ReachableE.refl _)
  exact ⟨h.1, h.2 (by decide)⟩

/-! ## Claim C7: the Job field invariant -/

/-- Claim C7 (amended): in every reachable engine state, a Completed Job
has its classification triple fully populated, and an Error Job has an
error message. The converses claimed by the original iff fail on the
code, because processRow clears neither field: a Job that erred in an
earlier run keeps its stale errorMessage while Processing and after
Completing in a later run (see the counterexample). -/
theorem C7_job_invariant_amended : ∀ (n : Nat) (evs : List Ev)
    (s : EngineState) (j : Nat),
    ReachableE (initEngine n) evs s → j < s.rows.length →
    ((s.rows.getD j freshRow).status = .completed →
      populatedRow (s.rows.getD j freshRow) = true) ∧
    ((s.rows.getD j freshRow).status = .error →
      (s.rows.getD j freshRow).errorMessage.isSome = true) := by
  intro n evs s j h hj
  have inv := engineInv h
  exact ⟨inv.comp_pop j hj, inv.err_msg j hj⟩

/-- The stale-error-message counterexample trace: a one-row batch fails in
a first run (errorMessage set), the run finishes normally, and a second
run over the same row succeeds. -/
def c7s1 : EngineState := doStart (initEngine 1) [0]
def c7s2 : EngineState := doDispatch c7s1 0 0 []
def c7s3 : EngineState := doSettle c7s2 0 0 (.err "Network connection failed")
def c7s4 : EngineState := doExit c7s3 0
def c7s5 : EngineState := doFinish c7s4
def c7s6 : EngineState := doStart c7s5 [0]
def c7s7 : EngineState := doDispatch c7s6 1 0 []
def c7s8 : EngineState := doSettle c7s7 1 0 (.ok "Y" "N" "Y")

/-- Counterexample to C7 as stated: the claim requires errorMessage to be
set if and only if the Job's status is Error, at every point during and
after a run. In the reachable state c7s8 the Job is Completed with a
fully populated classification, yet its errorMessage from the earlier
failed run is still set. (One step earlier, in c7s7, the Job is even
Processing with errorMessage set.) -/
theorem C7_counterexample :
    ReachableE (initEngine 1)
      [Ev.settle 1 (.ok "Y" "N" "Y"), Ev.dispatch 1, Ev.start [0],
       Ev.finish, Ev.exitW 0,
       Ev.settle 0 (.err "Network connection failed"), Ev.dispatch 0,
       Ev.start [0]] c7s8 ∧
    (c7s8.rows.getD 0 freshRow).status = .completed ∧
    populatedRow (c7s8.rows.getD 0 freshRow) = true ∧
    (c7s8.rows.getD 0 freshRow).errorMessage =
      some "Network connection failed" := by
  refine ⟨?_, by decide, by decide, by decide⟩
  exact ReachableE.tail
    (ReachableE.tail
      (ReachableE.tail
        (ReachableE.tail
          (ReachableE.tail
            (ReachableE.tail
              (ReachableE.tail
                (ReachableE.tail (ReachableE.refl _)
                  (Step.start (initEngine 1) [0] rfl (by decide)))
                (Step.dispatchRun c7s1 0 0 [] rfl rfl rfl rfl (by decide)))
              (Step.settle c7s2 0 0 (.err "Network connection failed") rfl))
            (Step.exitW c7s3 0 rfl (Or.inl rfl)))
          (Step.finish c7s4 rfl rfl (by decide)))
        (Step.start c7s5 [0] rfl (by decide)))
      (Step.dispatchRun c7s6 1 0 [] rfl rfl rfl rfl (by decide)))
    (Step.settle c7s7 1 0 (.ok "Y" "N" "Y") rfl)

/-- Witness for the amended C7 at the reachable state c7s3, whose single
Job is in Error status, so the error-message direction is exercised. -/
theorem C7_job_invariant_amended_witness :
    ((c7s3.rows.getD 0 freshRow).status = .completed →
      populatedRow (c7s3.rows.getD 0 freshRow) = true) ∧
    ((c7s3.rows.getD 0 freshRow).status = .error →
      (c7s3.rows.getD 0 freshRow).errorMessage.isSome = true) :=
  C7_job_invariant_amended 1
    [Ev.settle 0 (.err "Network connection failed"), Ev.dispatch 0,
     Ev.start [0]] c7s3 0
    (ReachableE.tail
      (ReachableE.tail
        (ReachableE.tail (ReachableE.refl _)
          (Step.start (initEngine 1) [0] rfl (by decide)))
        (Step.dispatchRun c7s1 0 0 [] rfl rfl rfl rfl (by decide)))
      (Step.settle c7s2 0 0 (.err "Network connection failed") rfl))
    (by decide)

/-! ## Claims C6 and C10: the energy-label exclusion rule -/

/-- A positive energy-label verdict implies the full real structural path:
the classifier cannot answer Present unless the nested chain down to the
.eek element exists. -/
theorem checkEnergie_imp_structure (doc : Dom) :
    checkEnergieLabel doc = true → energieLabelStructure doc = true := by
  intro h
  unfold checkEnergieLabel at h
  unfold energieLabelStructure
  cases e1 : findDom (hasClasses ["x-regulatory-wrapper"]) doc with
  | none => simp only [e1] at h; exact Bool.noConfusion h
  | some rwEl =>
    simp only [e1] at h ⊢
    cases e2 : qsel ["vim", "x-eek"] rwEl with
    | none => simp only [e2] at h; exact Bool.noConfusion h
    | some vimEl =>
      simp only [e2] at h ⊢
      cases e3 : qsel ["x-eek__icon-overlay-wrapper"] vimEl with
      | none => simp only [e3] at h; exact Bool.noConfusion h
      | some iwEl =>
        simp only [e3] at h ⊢
        cases e4 : qsel ["ux-eek-icon"] iwEl with
        | none => simp only [e4] at h; exact Bool.noConfusion h
        | some uxEl =>
          simp only [e4] at h ⊢
          cases e5 : qsel ["eek"] uxEl with
          | none => simp only [e5] at h; exact Bool.noConfusion h
          | some eekEl => simp only [e5]

/-- Claim C6: a document in which a shallow single-selector search finds
the text-only fake energy-label control, but which has no real structural
path, is classified Absent by the energy-label predicate. -/
theorem C6_fake_only_absent : ∀ doc : Dom,
    shallowFakeEek doc = true → energieLabelStructure doc = false →
    checkEnergieLabel doc = false := by
  intro doc _ hstruct
  by_contra hne
  have hc : checkEnergieLabel doc = true := by
    cases hcc : checkEnergieLabel doc with
    | false => exact absurd hcc hne
    | true => rfl
  have := checkEnergie_imp_structure doc hc
  rw [hstruct] at this
  exact Bool.noConfusion this

/-- A page carrying only the fake energy-label control: the regulatory
wrapper and the vim container exist, but inside there is only a fake-link
reading EEK A+, with none of the interactive structure. -/
def c6doc : Dom :=
  .node "html" [] [] ""
    (.cons (.node "div" ["x-regulatory-wrapper"] [] ""
      (.cons (.node "div" ["vim", "x-eek"] [] ""
        (.cons (.node "span" ["fake-link"] [] "EEK A+" .nil) .nil)) .nil)) .nil)

/-- Witness for C6: on the fake-only page the shallow search does find the
marker, the real structural path is missing, and the classifier answers
Absent. -/
theorem C6_fake_only_absent_witness :
    shallowFakeEek c6doc = true ∧ energieLabelStructure c6doc = false ∧
    checkEnergieLabel c6doc = false :=
  ⟨by decide, by decide, C6_fake_only_absent c6doc (by decide) (by decide)⟩

/-- Claim C10 (amended): the exclusion rule overrides a genuine full
structural match, but only through the first .fake-link of the vim
container in document order: whenever the structural chain is present and
the first fake-link's text matches the EEK pattern, the predicate is
Absent, regardless of the rating content. The original claim's
quantification over any matching fake-link in the container fails (see
the counterexample): querySelector inspects only the first fake-link. -/
theorem C10_exclusion_first_fake : ∀ (doc rwEl vimEl iwEl uxEl eekEl fl : Dom),
    findDom (hasClasses ["x-regulatory-wrapper"]) doc = some rwEl →
    qsel ["vim", "x-eek"] rwEl = some vimEl →
    qsel ["x-eek__icon-overlay-wrapper"] vimEl = some iwEl →
    qsel ["ux-eek-icon"] iwEl = some uxEl →
    qsel ["eek"] uxEl = some eekEl →
    qsel ["fake-link"] vimEl = some fl →
    eekScan (textContent fl) = true →
    checkEnergieLabel doc = false := by
  intro doc rwEl vimEl iwEl uxEl eekEl fl h1 h2 h3 h4 h5 h6 h7
  unfold checkEnergieLabel
  simp only [h1, h2, h3, h4, h5, h6, h7, if_true]

/-- The two-fake-links counterexample page: the complete real interactive
path with a nonempty rating, and, beside it in the vim container, first a
harmless fake-link and then a fake-link whose text matches the EEK
pattern. -/
def c10rating : Dom := .node "span" ["eek__rating"] [] "A" .nil
def c10eek : Dom := .node "div" ["eek"] [] "" (.cons c10rating .nil)
def c10ux : Dom := .node "div" ["ux-eek-icon"] [] "" (.cons c10eek .nil)
def c10iw : Dom :=
  .node "div" ["x-eek__icon-overlay-wrapper"] [] "" (.cons c10ux .nil)
def c10fake1 : Dom := .node "span" ["fake-link"] [] "mehr anzeigen" .nil
def c10fake2 : Dom := .node "span" ["fake-link"] [] "EEK A" .nil
def c10vim : Dom :=
  .node "div" ["vim", "x-eek"] [] ""
    (.cons c10iw (.cons c10fake1 (.cons c10fake2 .nil)))
def c10rw : Dom :=
  .node "div" ["x-regulatory-wrapper"] [] "" (.cons c10vim .nil)
def c10doc : Dom := .node "html" [] [] "" (.cons c10rw .nil)

/-- Counterexample to C10 as stated: the vim container contains a
fake-link matching the EEK pattern (c10fake2), the full real structural
path with nonempty rating is present, yet the predicate evaluates to
Present, because the first fake-link in document order (c10fake1, whose
text matches nothing) is the only one the code examines. -/
theorem C10_counterexample :
    qsel ["vim", "x-eek"] c10rw = some c10vim ∧
    qsel ["fake-link"] c10vim = some c10fake1 ∧
    eekScan (textContent c10fake1) = false ∧
    (collectDom (fun e => hasClasses ["fake-link"] e &&
      eekScan (textContent e)) c10vim).length = 1 ∧
    energieLabelStructure c10doc = true ∧
    (jsTrim (textContent c10rating)).isEmpty = false ∧
    checkEnergieLabel c10doc = true := by
  refine ⟨rfl, rfl, by decide, by decide, by decide, by decide, by decide⟩

/-- The single-matching-fake-link page for the C10 witness: same as the
counterexample page but with the harmless fake-link removed, so the
matching fake-link is the first one. -/
def c10bvim : Dom :=
  .node "div" ["vim", "x-eek"] [] "" (.cons c10iw (.cons c10fake2 .nil))
def c10brw : Dom :=
  .node "div" ["x-regulatory-wrapper"] [] "" (.cons c10bvim .nil)
def c10bdoc : Dom := .node "html" [] [] "" (.cons c10brw .nil)

/-- Witness for the amended C10: with the matching fake-link first, the
exclusion overrides the genuine full structural match. -/
theorem C10_exclusion_first_fake_witness :
    checkEnergieLabel c10bdoc = false :=
  C10_exclusion_first_fake c10bdoc c10brw c10bvim c10iw c10ux c10eek c10fake2
    rfl rfl rfl rfl rfl rfl (by decide)

/-! ## Claim C8: validation of malformed targets -/

/-- Claim C8 (amended): a well-formed request whose URL fails the eBay URL
pattern is rejected by the analyze route with HTTP 400 and code
NOT_EBAY_URL, and the scrape pipeline is never invoked for it; on the
client side the resulting error message is non-retryable, so a single
attempt is made and no retry budget is consumed. The original claim's
further statement that no browser initialization occurs for an invalid
target fails on the code (see the counterexample): the route middleware
initializes the browser on demand before any validation runs. -/
theorem C8_validation_amended : ∀ (initOk : Bool) (s : ServerState) (url : String),
    s.isServerReady = true →
    (s.browserConnected = true ∨ initOk = true) →
    url ≠ "" → ¬(url.length < 10) → ebayUrlTest url = false →
    ((analyzeRoute initOk s (some url)).1 = ⟨400, "NOT_EBAY_URL"⟩ ∧
     (analyzeRoute initOk s (some url)).2.2 = false) ∧
    shouldNotRetry errInvalidUrl = true ∧
    (∀ (f : Nat → ReqOutcome ScrapeResult) (d r : Nat) (m : String),
      f 0 = .err m → shouldNotRetry m = true →
      makeRequestModel f d r = (.error m, 1, [])) := by
  intro initOk s url hready hbrowser hne hlen hurl
  refine ⟨?_, by decide, ?_⟩
  · have hroute : analyzeRoute initOk s (some url) =
        (⟨400, "NOT_EBAY_URL"⟩, ⟨s.isServerReady, true⟩, false) := by
      rw [analyzeRoute, hready]
      simp only [Bool.not_true, Bool.false_eq_true, if_false]
      have hcond : (!s.browserConnected && !initOk) = false := by
        rcases hbrowser with hb | hi
        · rw [hb]; rfl
        · rw [hi]; simp
      rw [hcond]
      simp only [Bool.false_eq_true, if_false]
      rw [if_neg hne, if_neg hlen, hurl]
      rfl
    rw [hroute]
    exact ⟨rfl, rfl⟩
  · intro f d r m hf hm
    rw [makeRequestModel, runAttempts]
    simp only [hf, hm, if_true, gt_iff_lt, lt_self_iff_false, if_false]

/-- Counterexample to C8 as stated: the claim says the rendering session
manager is never invoked for an invalid target and in particular no
browser initialization occurs. But the analyze endpoint's middleware runs
before validation: for a ready server with no browser and a URL that
fails the eBay pattern, the response is the 400 NOT_EBAY_URL validation
error and the scrape is never called, yet the server state shows the
browser was initialized (browserConnected flipped to true). -/
theorem C8_counterexample :
    analyzeRoute true ⟨true, false⟩ (some "http://example.com/page") =
      (⟨400, "NOT_EBAY_URL"⟩, ⟨true, true⟩, false) := by
  decide

/-- Witness for the amended C8 at a concrete invalid URL and a concrete
single-shot failing request. -/
theorem C8_validation_amended_witness :
    ((analyzeRoute true ⟨true, false⟩ (some "http://example.com/page")).1 =
        ⟨400, "NOT_EBAY_URL"⟩ ∧
      (analyzeRoute true ⟨true, false⟩ (some "http://example.com/page")).2.2 = false) ∧
    shouldNotRetry errInvalidUrl = true ∧
    makeRequestModel (fun _ => .err "Invalid eBay URL format") 2000 2 =
      (.error "Invalid eBay URL format", 1, []) := by
  have h := C8_validation_amended true ⟨true, false⟩ "http://example.com/page"
    rfl (Or.inr rfl) (by decide) (by decide) (by decide)
  exact ⟨h.1, h.2.1,
    h.2.2 (fun _ => .err "Invalid eBay URL format") 2000 2
      "Invalid eBay URL format" rfl (by decide)⟩

/-! ## Claim C9: rate limiting before each render -/

/-- Claim C9 (amended): before every render the session manager waits
until at least 2000 ms have elapsed since the recorded lastRequestTime,
which is the moment the previous render began (the timestamp taken after
the previous rate-limit waits) rather than the end of the previous
request, and then additionally waits a random jitter that always lies in
the half-open range from 500 to 1500 ms. -/
theorem C9_rate_limit_amended : ∀ (lastT now rand : ℚ),
    lastT ≤ now → 0 ≤ rand → rand < 1 →
    2000 ≤ (now + (respectRateLimit lastT now rand).1) - lastT ∧
    500 ≤ (respectRateLimit lastT now rand).2 ∧
    (respectRateLimit lastT now rand).2 < 1500 := by
  intro lastT now rand hln hr0 hr1
  have hj0 : (0 : ℚ) ≤ rand * 1000 := by positivity
  have hj1 : rand * 1000 < 1000 := by nlinarith
  unfold respectRateLimit
  simp only [max_self]
  constructor
  · by_cases h : now - lastT < 2000
    · rw [if_pos h]
      linarith
    · rw [if_neg h]
      push_neg at h
      linarith
  · constructor
    · linarith
    · linarith

/-- Counterexample to C9 as stated: the claim measures the 2000 ms
minimum spacing from the end of the previous request. In the scenario
below the previous request recorded lastRequestTime 0 (the moment its
render began) and its render ran until time 5000; the next
respectRateLimit call at time 5100 adds no spacing wait (5100 - 0 is
over 2000) and only the minimal 500 ms jitter (random sample 0), so the
next render begins at 5600, a mere 600 ms after the end of the previous
request instead of the claimed 2000. -/
theorem C9_counterexample :
    nextRenderStart 0 5100 0 = 5600 ∧
    nextRenderStart 0 5100 0 - 5000 < 2000 ∧
    (0 : ℚ) ≤ 5000 ∧ (5000 : ℚ) ≤ 5100 := by
  refine ⟨?_, ?_, by norm_num, by norm_num⟩ <;>
    norm_num [nextRenderStart, respectRateLimit]

/-- Witness for the amended C9 at concrete times: the last render began
at 0, the next call is at 100 with random sample one half. -/
theorem C9_rate_limit_amended_witness :
    2000 ≤ ((100 : ℚ) + (respectRateLimit 0 100 (1/2)).1) - 0 ∧
    500 ≤ (respectRateLimit 0 100 (1/2)).2 ∧
    (respectRateLimit 0 100 (1/2)).2 < 1500 :=
  C9_rate_limit_amended 0 100 (1/2) (by norm_num) (by norm_num) (by norm_num)

end Mithra
